import Mathlib

/-!
# Verification of the Swinsian AI playlist agent core

A shallow embedding of the catalog-extraction / catalog-encoding /
curation-reply-parsing / playlist-materialization pipeline implemented in
`swinsian_agent.py` and `swinsian_ui.py`, together with theorems settling the
frozen claims about it.

Modelling conventions:
* Python strings are Lean `String`s; character-level work happens on `List Char`.
* Python `str.strip()` is modelled over the ASCII whitespace characters
  (space, tab, newline, carriage return, vertical tab, form feed).
* Fallible Python code (expressions that can raise) returns `Option`/`Except`.
* `random.shuffle` is modelled as an explicit reordering function argument;
  theorems that depend on it being a permutation take that as a hypothesis.
* JSON numbers are modelled as integers: the curation protocol exchanges only
  integer ids, and every number the pipeline produces or consumes is an integer.
-/

/-! ## Python string primitives -/

/-- The ASCII whitespace characters recognised by Python's `str.strip()`
(unicode whitespace is not modelled). -/
def isPySpace (c : Char) : Bool :=
  c = ' ' || c = '\t' || c = '\n' || c = '\r' || c = '\x0b' || c = '\x0c'

/-- Drop the longest suffix of `l` all of whose elements satisfy `p`. -/
def dropEndWhile (p : α → Bool) (l : List α) : List α :=
  (l.reverse.dropWhile p).reverse

/-- Python `str.strip()` on a character list. -/
def pyStripChars (cs : List Char) : List Char :=
  dropEndWhile isPySpace (cs.dropWhile isPySpace)

/-- Python `str.strip()`. -/
def pyStrip (s : String) : String :=
  ⟨pyStripChars s.data⟩

/-- Python `"\n".join(lines)`. -/
def joinNl : List String → String
  | [] => ""
  | [l] => l
  | l :: ls => l ++ "\n" ++ joinNl ls

/-! ## Track records and the library reader

`get_library_tracks` (identical in both source files) fetches seven per-field
value sequences from Swinsian, then assembles them positionally:

    for i, name in enumerate(names):
        name = name.strip()
        if not name:
            continue
        tracks.append({"id": i, "title": name,
                       "artist": artists[i].strip() if i < len(artists) else "",
                       ... })
-/

/-- One library entry, as assembled by `get_library_tracks`. -/
structure Track where
  id : Nat
  title : String
  artist : String
  album : String
  genre : String
  year : String
  rating : String
  plays : String
deriving DecidableEq, Repr

/-- The assembly loop of `get_library_tracks`: `i` is the `enumerate` index over
the `names` sequence; out-of-range positions of the other field sequences yield
the empty string (`artists[i].strip() if i < len(artists) else ""` equals
stripping the `getD i ""` element, since stripping `""` is `""`). -/
def assembleTracks (artists albums genres years ratings plays : List String) :
    Nat → List String → List Track
  | _, [] => []
  | i, name :: rest =>
    let name' := pyStrip name
    if name' = "" then
      assembleTracks artists albums genres years ratings plays (i + 1) rest
    else
      { id := i
        title := name'
        artist := pyStrip (artists.getD i "")
        album := pyStrip (albums.getD i "")
        genre := pyStrip (genres.getD i "")
        year := pyStrip (years.getD i "")
        rating := pyStrip (ratings.getD i "")
        plays := pyStrip (plays.getD i "") } ::
      assembleTracks artists albums genres years ratings plays (i + 1) rest

/-- `get_library_tracks`, given the seven already-split per-field sequences. -/
def get_library_tracks
    (names artists albums genres years ratings plays : List String) : List Track :=
  assembleTracks artists albums genres years ratings plays 0 names

/-! ## Identifier lookup (materializer side)

`create_swinsian_playlist` / `create_playlist` build
`id_to_track = {t["id"]: t for t in all_tracks}`; a Python dict comprehension
keeps the last entry for a duplicated key, so lookup is `find?` over the
reversed list.  Curated ids arrive from JSON as integers. -/

/-- The `id_to_track` dict lookup. -/
def id_to_track (all_tracks : List Track) (i : Int) : Option Track :=
  all_tracks.reverse.find? (fun t => (t.id : Int) == i)

/-! ### C1 support lemmas -/

theorem assembleTracks_id_ge (artists albums genres years ratings plays : List String) :
    ∀ (names : List String) (i : Nat) (t : Track),
      t ∈ assembleTracks artists albums genres years ratings plays i names → i ≤ t.id := by
  intro names
  induction names with
  | nil => intro i t h; simp [assembleTracks] at h
  | cons name rest ih =>
    intro i t h
    simp only [assembleTracks] at h
    split at h
    · exact Nat.le_of_succ_le (ih (i + 1) t h)
    · rcases List.mem_cons.mp h with h' | h'
      · subst h'; exact Nat.le_refl i
      · exact Nat.le_of_succ_le (ih (i + 1) t h')

theorem assembleTracks_id_strictMono (artists albums genres years ratings plays : List String) :
    ∀ (names : List String) (i : Nat),
      (assembleTracks artists albums genres years ratings plays i names).Pairwise
        (fun a b => a.id < b.id) := by
  intro names
  induction names with
  | nil => intro i; simp [assembleTracks]
  | cons name rest ih =>
    intro i
    simp only [assembleTracks]
    split
    · exact ih (i + 1)
    · refine List.pairwise_cons.mpr ⟨?_, ih (i + 1)⟩
      intro t ht
      exact Nat.lt_of_succ_le (assembleTracks_id_ge artists albums genres years ratings plays rest (i + 1) t ht)

/-- In a list whose ids are pairwise distinct, the reverse-`find?` dict lookup
returns exactly the member with the looked-up id. -/
theorem id_to_track_of_pairwise_ne (l : List Track)
    (hl : l.Pairwise (fun a b => a.id ≠ b.id)) (t : Track) (ht : t ∈ l) :
    id_to_track l (t.id : Int) = some t := by
  induction l with
  | nil => simp at ht
  | cons a rest ih =>
    rcases List.pairwise_cons.mp hl with ⟨ha, hrest⟩
    unfold id_to_track at *
    rw [List.reverse_cons, List.find?_append]
    rcases List.mem_cons.mp ht with h | h
    · subst h
      have hnone : rest.reverse.find? (fun u => (u.id : Int) == (t.id : Int)) = none := by
        apply List.find?_eq_none.mpr
        intro u hu
        have : t.id ≠ u.id := ha u (List.mem_reverse.mp hu)
        simp only [beq_iff_eq, Int.natCast_inj]
        omega
      simp [hnone]
    · have := ih hrest h
      rw [this]
      simp

/-! ### Claim C1 -/

/-- C1 as stated is false: `id` is the original `enumerate` position, not the
post-filter running index.  With names `["A", "", "B"]` the middle entry is
dropped and the produced ids are `[0, 2]`, not the contiguous `[0, 1]`. -/
theorem C1_counterexample :
    (get_library_tracks ["A", "", "B"] [] [] [] [] [] []).map Track.id ≠
      List.range (get_library_tracks ["A", "", "B"] [] [] [] [] [] []).length := by
  decide

/-- C1 (amended): each produced TrackRecord's `id` is its original position in
the fetched `names` sequence, so over the post-filter subset the ids are
strictly increasing (hence unique, but not necessarily contiguous), and every
id of a produced record resolves back through the materializer's
`id_to_track` lookup to that exact record. -/
theorem C1_amended (names artists albums genres years ratings plays : List String) :
    ((get_library_tracks names artists albums genres years ratings plays).Pairwise
        (fun a b => a.id < b.id)) ∧
      (∀ t ∈ get_library_tracks names artists albums genres years ratings plays,
        id_to_track (get_library_tracks names artists albums genres years ratings plays)
          (t.id : Int) = some t) := by
  constructor
  · exact assembleTracks_id_strictMono artists albums genres years ratings plays names 0
  · intro t ht
    apply id_to_track_of_pairwise_ne
    · exact (assembleTracks_id_strictMono artists albums genres years ratings plays names 0).imp
        (fun h => Nat.ne_of_lt h)
    · exact ht

/-! ## Play-count parsing and deterministic-priority sampling

In `ask_claude_for_playlist` / `ask_claude`, libraries above the compact budget
are sampled:

    by_plays = sorted(tracks, key=lambda x: int(x["plays"] or 0), reverse=True)
    top      = by_plays[:MAX_TRACKS_COMPACT // 2]
    rest     = by_plays[MAX_TRACKS_COMPACT // 2:]
    random.shuffle(rest)
    tracks   = top + rest[:MAX_TRACKS_COMPACT - len(top)]
-/

def MAX_TRACKS_FULL : Nat := 1500

def MAX_TRACKS_COMPACT : Nat := 4000

/-- Decimal value of a digit list (most significant first). -/
def digitsVal (ds : List Char) : Nat :=
  ds.foldl (fun acc c => 10 * acc + (c.toNat - 48)) 0

/-- Parse a nonempty all-digit run; `none` otherwise. -/
def parseDigits (ds : List Char) : Option Nat :=
  if ds = [] then none
  else if ds.all Char.isDigit then some (digitsVal ds) else none

/-- Python `int()` applied to a string: surrounding whitespace is ignored, an
optional single sign precedes an ASCII digit run; anything else raises
(`none`).  Underscore digit separators and non-ASCII digits are not
modelled. -/
def pyInt (s : String) : Option Int :=
  match pyStripChars s.data with
  | '-' :: ds => (parseDigits ds).map (fun n => -(n : Int))
  | '+' :: ds => (parseDigits ds).map (fun n => (n : Int))
  | ds => (parseDigits ds).map (fun n => (n : Int))

/-- The sort key `int(x["plays"] or 0)`: an empty (falsy) plays string is
replaced by the integer `0` before `int` is applied; any other string goes
through `pyInt` and may raise. -/
def plays_key (t : Track) : Option Int :=
  if t.plays = "" then some 0 else pyInt t.plays

/-- Evaluate an option-valued function over a list, failing on the first
`none` — models Python's `sorted` evaluating its `key` callable once per
element and propagating the first exception. -/
def mapOpt (f : α → Option β) : List α → Option (List β)
  | [] => some []
  | a :: l =>
    match f a with
    | none => none
    | some b => (mapOpt f l).map (fun bs => b :: bs)

/-- `sorted(tracks, key=lambda x: int(x["plays"] or 0), reverse=True)`:
compute every key (propagating a raise), then stable-sort descending by key.
`List.mergeSort` with `le (k, _) (k', _) := k' ≤ k` keeps elements with equal
keys in their original relative order, matching Python's stable sort. -/
def sort_by_plays (tracks : List Track) : Option (List Track) :=
  (mapOpt (fun t => (plays_key t).map (fun k => (k, t))) tracks).map
    (fun kts => (kts.mergeSort (fun a b => decide (b.1 ≤ a.1))).map Prod.snd)

/-- The oversized-library sampling step (the `else` branch above), with
`random.shuffle` of `rest` modelled by the `shuffle` argument. -/
def sample_tracks (shuffle : List Track → List Track) (tracks : List Track) :
    Option (List Track) :=
  (sort_by_plays tracks).map (fun by_plays =>
    let top := by_plays.take (MAX_TRACKS_COMPACT / 2)
    let rest := by_plays.drop (MAX_TRACKS_COMPACT / 2)
    top ++ (shuffle rest).take (MAX_TRACKS_COMPACT - top.length))

/-- The sorted library as a plain list (empty when key evaluation raised). -/
def sorted_by_plays (tracks : List Track) : List Track :=
  (sort_by_plays tracks).getD []

/-- The deterministic head of the sample: the `MAX_TRACKS_COMPACT / 2`
most-played tracks. -/
def top_half (tracks : List Track) : List Track :=
  (sorted_by_plays tracks).take (MAX_TRACKS_COMPACT / 2)

/-- Descending play-count order (keys read with default 0). -/
def descendingByPlays (l : List Track) : Prop :=
  l.Pairwise (fun a b => (plays_key b).getD 0 ≤ (plays_key a).getD 0)

/-! ### mapOpt lemmas -/

theorem mapOpt_eq_none_of_mem (f : α → Option β) :
    ∀ (l : List α) (a : α), a ∈ l → f a = none → mapOpt f l = none := by
  intro l
  induction l with
  | nil => intro a ha; simp at ha
  | cons x xs ih =>
    intro a ha hfa
    rcases List.mem_cons.mp ha with h | h
    · subst h; simp [mapOpt, hfa]
    · simp only [mapOpt]
      cases hfx : f x with
      | none => rfl
      | some b => rw [ih a h hfa]; rfl

theorem mapOpt_eq_some_of_forall_isSome (f : α → Option β) :
    ∀ (l : List α), (∀ a ∈ l, (f a).isSome) → ∃ l', mapOpt f l = some l' := by
  intro l
  induction l with
  | nil => intro _; exact ⟨[], rfl⟩
  | cons x xs ih =>
    intro h
    obtain ⟨b, hb⟩ := Option.isSome_iff_exists.mp (h x (List.mem_cons_self x xs))
    obtain ⟨l', hl'⟩ := ih (fun a ha => h a (List.mem_cons_of_mem x ha))
    exact ⟨b :: l', by simp [mapOpt, hb, hl']⟩

theorem mapOpt_length (f : α → Option β) :
    ∀ (l : List α) (l' : List β), mapOpt f l = some l' → l'.length = l.length := by
  intro l
  induction l with
  | nil => intro l' h; simp [mapOpt] at h; simp [← h]
  | cons x xs ih =>
    intro l' h
    simp only [mapOpt] at h
    cases hfx : f x with
    | none => rw [hfx] at h; simp at h
    | some b =>
      rw [hfx] at h
      cases hxs : mapOpt f xs with
      | none => rw [hxs] at h; simp at h
      | some bs =>
        rw [hxs] at h
        simp only [Option.map_some', Option.some_inj] at h
        subst h
        simp [ih bs hxs]

theorem mapOpt_mem (f : α → Option β) :
    ∀ (l : List α) (l' : List β), mapOpt f l = some l' →
      ∀ b ∈ l', ∃ a ∈ l, f a = some b := by
  intro l
  induction l with
  | nil => intro l' h b hb; simp [mapOpt] at h; subst h; simp at hb
  | cons x xs ih =>
    intro l' h b hb
    simp only [mapOpt] at h
    cases hfx : f x with
    | none => rw [hfx] at h; simp at h
    | some c =>
      rw [hfx] at h
      cases hxs : mapOpt f xs with
      | none => rw [hxs] at h; simp at h
      | some bs =>
        rw [hxs] at h
        simp only [Option.map_some', Option.some_inj] at h
        subst h
        rcases List.mem_cons.mp hb with h' | h'
        · subst h'; exact ⟨x, List.mem_cons_self x xs, hfx⟩
        · obtain ⟨a, ha, hfa⟩ := ih bs hxs b h'
          exact ⟨a, List.mem_cons_of_mem x ha, hfa⟩

theorem mapOpt_key_snd (g : α → Option κ) :
    ∀ (l : List α) (l' : List (κ × α)),
      mapOpt (fun a => (g a).map (fun k => (k, a))) l = some l' →
      l'.map Prod.snd = l := by
  intro l
  induction l with
  | nil => intro l' h; simp [mapOpt] at h; simp [← h]
  | cons x xs ih =>
    intro l' h
    simp only [mapOpt] at h
    cases hgx : g x with
    | none => rw [hgx] at h; simp at h
    | some k =>
      rw [hgx] at h
      simp only [Option.map_some'] at h
      cases hxs : mapOpt (fun a => (g a).map (fun k => (k, a))) xs with
      | none => rw [hxs] at h; simp at h
      | some bs =>
        rw [hxs] at h
        simp only [Option.map_some', Option.some_inj] at h
        subst h
        simp [ih bs hxs]

/-! ### Claim C3 -/

/-- C3 as stated is false: `int(x["plays"] or 0)` defaults to 0 only for an
*empty* (falsy) plays string; a non-empty non-numeric string raises
`ValueError`, so key computation — and with it the whole sampling sort —
fails rather than defaulting. -/
theorem C3_counterexample :
    plays_key { id := 0, title := "T", artist := "", album := "", genre := "",
                year := "", rating := "", plays := "oops" } = none ∧
      sort_by_plays [{ id := 0, title := "T", artist := "", album := "", genre := "",
                       year := "", rating := "", plays := "oops" }] = none := by
  constructor
  · decide
  · simp [sort_by_plays, mapOpt]
    decide

/-- C3 (amended): the play-count key is the numeric value of the `plays`
string with a default of 0 only when the string is empty; when the string is
non-empty and non-numeric the key computation raises, and sampling fails on
any library containing such a track instead of defaulting. -/
theorem C3_amended (t : Track) (tracks : List Track)
    (shuffle : List Track → List Track) (ht : t ∈ tracks) :
    (t.plays = "" → plays_key t = some 0) ∧
      (∀ v : Int, pyInt t.plays = some v → t.plays ≠ "" → plays_key t = some v) ∧
      (plays_key t = none →
        sort_by_plays tracks = none ∧ sample_tracks shuffle tracks = none) := by
  refine ⟨fun h => by simp [plays_key, h], fun v hv hne => by simp [plays_key, hne, hv], ?_⟩
  intro hnone
  have hsort : sort_by_plays tracks = none := by
    unfold sort_by_plays
    rw [mapOpt_eq_none_of_mem _ tracks t ht (by simp [hnone])]
    rfl
  exact ⟨hsort, by simp [sample_tracks, hsort]⟩

theorem C3_amended_witness :
    sort_by_plays [{ id := 0, title := "T", artist := "", album := "", genre := "",
                     year := "", rating := "", plays := "x1" }] = none ∧
      sample_tracks id [{ id := 0, title := "T", artist := "", album := "", genre := "",
                          year := "", rating := "", plays := "x1" }] = none :=
  (C3_amended
      { id := 0, title := "T", artist := "", album := "", genre := "",
        year := "", rating := "", plays := "x1" }
      [{ id := 0, title := "T", artist := "", album := "", genre := "",
         year := "", rating := "", plays := "x1" }]
      id (by decide)).2.2 (by decide)

/-! ### Claim C2 -/

/-- C2: for a library larger than `MAX_TRACKS_COMPACT`, and any outcome of
`random.shuffle` (any permutation of the tail), the sample is exactly the
deterministic head — the `MAX_TRACKS_COMPACT / 2` most-played tracks in the
stable descending play-count order — followed by a tail sample; it always
contains exactly `MAX_TRACKS_COMPACT` tracks, the whole head is always
present regardless of the shuffle, the sorted list is a permutation of the
library, and it is descending in play count. -/
theorem C2_sampling (tracks : List Track) (shuffle : List Track → List Track)
    (hn : MAX_TRACKS_COMPACT < tracks.length)
    (hkeys : ∀ t ∈ tracks, (plays_key t).isSome)
    (hshuffle : ∀ l, (shuffle l).Perm l) :
    sample_tracks shuffle tracks =
        some (top_half tracks ++
          (shuffle ((sorted_by_plays tracks).drop (MAX_TRACKS_COMPACT / 2))).take
            (MAX_TRACKS_COMPACT / 2)) ∧
      ((sample_tracks shuffle tracks).getD []).length = MAX_TRACKS_COMPACT ∧
      top_half tracks ⊆ (sample_tracks shuffle tracks).getD [] ∧
      (sorted_by_plays tracks).Perm tracks ∧
      descendingByPlays (sorted_by_plays tracks) := by
  -- key computation succeeds on every track
  have hf : ∀ t ∈ tracks, ((plays_key t).map (fun k => (k, t))).isSome := by
    intro t ht
    have := hkeys t ht
    cases h : plays_key t with
    | none => rw [h] at this; simp at this
    | some k => simp [h]
  obtain ⟨kts, hkts⟩ := mapOpt_eq_some_of_forall_isSome _ tracks hf
  set le : Int × Track → Int × Track → Bool := fun a b => decide (b.1 ≤ a.1) with hle
  have hsort : sort_by_plays tracks = some ((kts.mergeSort le).map Prod.snd) := by
    simp [sort_by_plays, hkts]
  have hsorted : sorted_by_plays tracks = (kts.mergeSort le).map Prod.snd := by
    simp [sorted_by_plays, hsort]
  -- lengths
  have hlen_kts : kts.length = tracks.length := mapOpt_length _ tracks kts hkts
  have hlen_sorted : (sorted_by_plays tracks).length = tracks.length := by
    rw [hsorted, List.length_map, List.length_mergeSort, hlen_kts]
  have htop_len : (top_half tracks).length = MAX_TRACKS_COMPACT / 2 := by
    rw [top_half, List.length_take, hlen_sorted]
    have : MAX_TRACKS_COMPACT / 2 ≤ tracks.length := by
      unfold MAX_TRACKS_COMPACT at *; omega
    omega
  -- permutation of the library
  have hperm : (sorted_by_plays tracks).Perm tracks := by
    rw [hsorted]
    have h1 : (kts.mergeSort le).Perm kts := List.mergeSort_perm kts le
    have h2 : ((kts.mergeSort le).map Prod.snd).Perm (kts.map Prod.snd) := h1.map Prod.snd
    rwa [mapOpt_key_snd plays_key tracks kts hkts] at h2
  -- every sorted pair carries its track's key
  have hkey_of_mem : ∀ p ∈ kts.mergeSort le, plays_key p.2 = some p.1 := by
    intro p hp
    have hp' : p ∈ kts := (List.mergeSort_perm kts le).subset hp
    obtain ⟨a, _, hfa⟩ := mapOpt_mem _ tracks kts hkts p hp'
    cases h : plays_key a with
    | none => rw [h] at hfa; simp at hfa
    | some k =>
      rw [h] at hfa
      simp only [Option.map_some', Option.some_inj] at hfa
      rw [← hfa]
      exact h
  -- descending order
  have hdesc : descendingByPlays (sorted_by_plays tracks) := by
    rw [hsorted, descendingByPlays, List.pairwise_map]
    have htrans : ∀ a b c : Int × Track, le a b → le b c → le a c := by
      intro a b c hab hbc
      simp only [hle, decide_eq_true_eq] at *
      omega
    have htotal : ∀ a b : Int × Track, le a b || le b a := by
      intro a b
      simp only [hle]
      rcases Int.le_total a.1 b.1 with h | h <;> simp [h]
    have := List.sorted_mergeSort htrans htotal kts
    refine this.imp_of_mem ?_
    intro p q hp hq hpq
    rw [hkey_of_mem p hp, hkey_of_mem q hq]
    simpa [hle] using hpq
  -- the sample itself
  have hsample : sample_tracks shuffle tracks =
      some (top_half tracks ++
        (shuffle ((sorted_by_plays tracks).drop (MAX_TRACKS_COMPACT / 2))).take
          (MAX_TRACKS_COMPACT / 2)) := by
    rw [sample_tracks, hsort]
    simp only [Option.map_some', Option.some_inj]
    rw [← hsorted]
    have : (sorted_by_plays tracks).take (MAX_TRACKS_COMPACT / 2) = top_half tracks := rfl
    rw [this, htop_len]
    norm_num [MAX_TRACKS_COMPACT]
  refine ⟨hsample, ?_, ?_, hperm, hdesc⟩
  · rw [hsample]
    simp only [Option.getD_some, List.length_append, List.length_take]
    have hshuf_len :
        (shuffle ((sorted_by_plays tracks).drop (MAX_TRACKS_COMPACT / 2))).length =
          tracks.length - MAX_TRACKS_COMPACT / 2 := by
      rw [(hshuffle _).length_eq, List.length_drop, hlen_sorted]
    rw [htop_len, hshuf_len]
    unfold MAX_TRACKS_COMPACT at *
    omega
  · rw [hsample]
    intro t ht
    simp only [Option.getD_some]
    exact List.mem_append_left _ ht

/-- A 4001-track library (every plays string empty) instantiating C2. -/
def c2Lib : List Track :=
  (List.range 4001).map (fun i =>
    { id := i, title := "T", artist := "", album := "", genre := "",
      year := "", rating := "", plays := "" })

theorem C2_sampling_witness :
    sample_tracks id c2Lib =
        some (top_half c2Lib ++
          (id ((sorted_by_plays c2Lib).drop (MAX_TRACKS_COMPACT / 2))).take
            (MAX_TRACKS_COMPACT / 2)) ∧
      ((sample_tracks id c2Lib).getD []).length = MAX_TRACKS_COMPACT ∧
      top_half c2Lib ⊆ (sample_tracks id c2Lib).getD [] ∧
      (sorted_by_plays c2Lib).Perm c2Lib ∧
      descendingByPlays (sorted_by_plays c2Lib) :=
  C2_sampling c2Lib id
    (by simp [c2Lib, MAX_TRACKS_COMPACT])
    (by
      intro t ht
      simp only [c2Lib, List.mem_map] at ht
      obtain ⟨i, _, rfl⟩ := ht
      simp [plays_key])
    (fun l => List.Perm.refl l)

/-! ## Catalog encoding

`build_full_catalog` / `build_compact_catalog` render one `|`-separated entry
per track and join the entries with `"\n"`; `ask_claude_for_playlist` /
`ask_claude` pick the representation from the track count:

    if total <= MAX_TRACKS_FULL:       full catalog
    elif total <= MAX_TRACKS_COMPACT:  compact catalog
    else:                              sampled compact catalog
-/

def FULL_DESC : String := "id|title|artist|album|genre|year|rating|plays"

def COMPACT_DESC : String := "id|title|artist"

/-- One full-catalog entry:
`f'{id}|{title}|{artist}|{album}|{genre}|{year}|★{rating}|▶{plays}'`. -/
def full_line (t : Track) : String :=
  Nat.repr t.id ++ "|" ++ t.title ++ "|" ++ t.artist ++ "|" ++ t.album ++ "|" ++
    t.genre ++ "|" ++ t.year ++ "|★" ++ t.rating ++ "|▶" ++ t.plays

def build_full_catalog (tracks : List Track) : String :=
  joinNl (tracks.map full_line)

/-- One compact-catalog entry: `f'{id}|{title}|{artist}'`. -/
def compact_line (t : Track) : String :=
  Nat.repr t.id ++ "|" ++ t.title ++ "|" ++ t.artist

def build_compact_catalog (tracks : List Track) : String :=
  joinNl (tracks.map compact_line)

/-- The size-regime selection of `ask_claude_for_playlist` / `ask_claude`:
which catalog text and field descriptor get sent (`none` when the sampling
branch raises during key computation). -/
def choose_catalog (shuffle : List Track → List Track) (tracks : List Track) :
    Option (String × String) :=
  if tracks.length ≤ MAX_TRACKS_FULL then
    some (build_full_catalog tracks, FULL_DESC)
  else if tracks.length ≤ MAX_TRACKS_COMPACT then
    some (build_compact_catalog tracks, COMPACT_DESC)
  else
    (sample_tracks shuffle tracks).map
      (fun ts => (build_compact_catalog ts, COMPACT_DESC))

/-- Number of text lines of a rendered catalog (0 for the empty text), i.e.
the `splitlines` count of a newline-joined text. -/
def catalog_line_count (s : String) : Nat :=
  if s = "" then 0 else s.data.count '\n' + 1

/-- A string containing no newline character. -/
def nl_free (s : String) : Bool :=
  s.data.all (fun c => !(c == '\n'))

/-- A track all of whose rendered metadata fields are newline-free. -/
def track_fields_nl_free (t : Track) : Bool :=
  nl_free t.title && nl_free t.artist && nl_free t.album && nl_free t.genre &&
  nl_free t.year && nl_free t.rating && nl_free t.plays

/-- Erase every field a compact-catalog entry does not mention. -/
def strip_to_compact (t : Track) : Track :=
  { id := t.id, title := t.title, artist := t.artist, album := "", genre := "",
    year := "", rating := "", plays := "" }

/-! ### Decimal representation facts -/

theorem string_data_append (a b : String) : (a ++ b).data = a.data ++ b.data := rfl

theorem digitChar_isDigit_of_lt : ∀ k, k < 10 → (Nat.digitChar k).isDigit = true := by
  decide

theorem toDigitsCore_mem :
    ∀ (f n : Nat) (acc : List Char) (c : Char),
      c ∈ Nat.toDigitsCore 10 f n acc → c ∈ acc ∨ c.isDigit := by
  intro f
  induction f with
  | zero => intro n acc c h; exact Or.inl h
  | succ f ih =>
    intro n acc c h
    simp only [Nat.toDigitsCore] at h
    have hd : (Nat.digitChar (n % 10)).isDigit :=
      digitChar_isDigit_of_lt (n % 10) (Nat.mod_lt n (by norm_num))
    split at h
    · rcases List.mem_cons.mp h with h' | h'
      · subst h'; exact Or.inr hd
      · exact Or.inl h'
    · rcases ih (n / 10) (Nat.digitChar (n % 10) :: acc) c h with h' | h'
      · rcases List.mem_cons.mp h' with h'' | h''
        · subst h''; exact Or.inr hd
        · exact Or.inl h''
      · exact Or.inr h'

theorem repr_data_isDigit (n : Nat) : ∀ c ∈ (Nat.repr n).data, c.isDigit := by
  intro c hc
  have : c ∈ Nat.toDigits 10 n := hc
  rcases toDigitsCore_mem (n + 1) n [] c this with h | h
  · simp at h
  · exact h

theorem toDigitsCore_ne_nil_of_acc :
    ∀ (f n : Nat) (acc : List Char), acc ≠ [] → Nat.toDigitsCore 10 f n acc ≠ [] := by
  intro f
  induction f with
  | zero => intro n acc h; simpa [Nat.toDigitsCore] using h
  | succ f ih =>
    intro n acc h
    simp only [Nat.toDigitsCore]
    split
    · simp
    · exact ih (n / 10) _ (by simp)

theorem repr_data_ne_nil (n : Nat) : (Nat.repr n).data ≠ [] := by
  show Nat.toDigits 10 n ≠ []
  unfold Nat.toDigits
  simp only [Nat.toDigitsCore]
  split
  · simp
  · exact toDigitsCore_ne_nil_of_acc n (n / 10) _ (by simp)

/-! ### Line structure of the catalogs -/

theorem full_line_ne_nil (t : Track) : (full_line t).data ≠ [] := by
  simp only [full_line, string_data_append]
  intro h
  have := congrArg List.length h
  simp at this

theorem compact_line_ne_nil (t : Track) : (compact_line t).data ≠ [] := by
  simp only [compact_line, string_data_append]
  intro h
  have := congrArg List.length h
  simp at this

theorem nl_free_iff (s : String) : nl_free s = true ↔ '\n' ∉ s.data := by
  simp only [nl_free, List.all_eq_true, Bool.not_eq_true', beq_eq_false_iff_ne, ne_eq]
  constructor
  · intro h hc
    exact h '\n' hc rfl
  · intro h x hx hc
    subst hc
    exact h hx

theorem full_line_nl_free (t : Track) (h : track_fields_nl_free t) :
    '\n' ∉ (full_line t).data := by
  have hid : '\n' ∉ (Nat.repr t.id).data := fun hc =>
    absurd (repr_data_isDigit t.id '\n' hc) (by decide)
  simp only [track_fields_nl_free, Bool.and_eq_true, nl_free_iff] at h
  obtain ⟨⟨⟨⟨⟨⟨h1, h2⟩, h3⟩, h4⟩, h5⟩, h6⟩, h7⟩ := h
  have hbar : '\n' ∉ ("|" : String).data := by decide
  have hstar : '\n' ∉ ("|★" : String).data := by decide
  have hplay : '\n' ∉ ("|▶" : String).data := by decide
  intro hc
  simp only [full_line, string_data_append, List.mem_append] at hc
  tauto

theorem compact_line_nl_free (t : Track) (h : track_fields_nl_free t) :
    '\n' ∉ (compact_line t).data := by
  have hid : '\n' ∉ (Nat.repr t.id).data := fun hc =>
    absurd (repr_data_isDigit t.id '\n' hc) (by decide)
  simp only [track_fields_nl_free, Bool.and_eq_true, nl_free_iff] at h
  obtain ⟨⟨⟨⟨⟨⟨h1, h2⟩, h3⟩, h4⟩, h5⟩, h6⟩, h7⟩ := h
  have hbar : '\n' ∉ ("|" : String).data := by decide
  intro hc
  simp only [compact_line, string_data_append, List.mem_append] at hc
  tauto

theorem string_eq_empty_iff (s : String) : s = "" ↔ s.data = [] := by
  constructor
  · intro h; rw [h]
  · intro h
    cases s with
    | mk d =>
      have hd : d = [] := h
      subst hd
      rfl

theorem joinNl_line_count :
    ∀ (lines : List String),
      (∀ l ∈ lines, l.data ≠ [] ∧ '\n' ∉ l.data) →
      catalog_line_count (joinNl lines) = lines.length := by
  intro lines
  induction lines with
  | nil => intro _; simp [joinNl, catalog_line_count]
  | cons l ls ih =>
    intro h
    cases ls with
    | nil =>
      obtain ⟨hne, hnl⟩ := h l (List.mem_cons_self l [])
      have hlne : l ≠ "" := fun hc => hne ((string_eq_empty_iff l).mp hc)
      simp [joinNl, catalog_line_count, hlne, List.count_eq_zero.mpr hnl]
    | cons l' ls' =>
      obtain ⟨hne, hnl⟩ := h l (List.mem_cons_self l _)
      have hrest := ih (fun x hx => h x (List.mem_cons_of_mem l hx))
      have hjoin_ne : joinNl (l' :: ls') ≠ "" := by
        intro hc
        rw [catalog_line_count, if_pos hc] at hrest
        simp at hrest
      have hdata : (joinNl (l :: l' :: ls')).data =
          l.data ++ '\n' :: (joinNl (l' :: ls')).data := by
        show (l ++ "\n" ++ joinNl (l' :: ls')).data = _
        simp [string_data_append]
      have hcat_ne : joinNl (l :: l' :: ls') ≠ "" := by
        intro hc
        have := (string_eq_empty_iff _).mp hc
        rw [hdata] at this
        simp at this
      rw [catalog_line_count, if_neg hcat_ne, hdata]
      rw [catalog_line_count, if_neg hjoin_ne] at hrest
      simp only [List.count_append, List.count_eq_zero.mpr hnl, List.count_cons,
        beq_self_eq_true, if_true]
      simp only [List.length_cons] at hrest ⊢
      omega

/-! ### Claim C4 -/

/-- C4: up to `MAX_TRACKS_FULL` tracks the full-field representation is
selected and (for single-line metadata fields) renders one text line per
track; between `MAX_TRACKS_FULL` and `MAX_TRACKS_COMPACT` the compact
representation is selected, renders one text line per track, and its text is
unchanged when every field it does not mention (album, genre, year, rating,
plays) is erased — in particular no rating or genre value appears. -/
theorem C4_encoder_modes (tracks : List Track) (shuffle : List Track → List Track)
    (hclean : ∀ t ∈ tracks, track_fields_nl_free t) :
    (tracks.length ≤ MAX_TRACKS_FULL →
        choose_catalog shuffle tracks = some (build_full_catalog tracks, FULL_DESC) ∧
        catalog_line_count (build_full_catalog tracks) = tracks.length) ∧
      (MAX_TRACKS_FULL < tracks.length → tracks.length ≤ MAX_TRACKS_COMPACT →
        choose_catalog shuffle tracks = some (build_compact_catalog tracks, COMPACT_DESC) ∧
        catalog_line_count (build_compact_catalog tracks) = tracks.length ∧
        build_compact_catalog tracks =
          build_compact_catalog (tracks.map strip_to_compact)) := by
  constructor
  · intro hn
    refine ⟨by simp [choose_catalog, hn], ?_⟩
    rw [build_full_catalog, joinNl_line_count, List.length_map]
    intro l hl
    obtain ⟨t, ht, rfl⟩ := List.mem_map.mp hl
    exact ⟨full_line_ne_nil t, full_line_nl_free t (hclean t ht)⟩
  · intro hn1 hn2
    refine ⟨by simp [choose_catalog, Nat.not_le.mpr hn1, hn2], ?_, ?_⟩
    · rw [build_compact_catalog, joinNl_line_count, List.length_map]
      intro l hl
      obtain ⟨t, ht, rfl⟩ := List.mem_map.mp hl
      exact ⟨compact_line_ne_nil t, compact_line_nl_free t (hclean t ht)⟩
    · rw [build_compact_catalog, build_compact_catalog, List.map_map]
      exact congrArg joinNl (List.map_congr_left (fun t _ => rfl))

/-- A one-track library (full-field regime). -/
def c4LibSmall : List Track :=
  [{ id := 0, title := "A", artist := "X", album := "", genre := "", year := "",
     rating := "", plays := "" }]

/-- A 1501-track library (compact regime). -/
def c4LibMid : List Track :=
  (List.range 1501).map (fun i =>
    { id := i, title := "T", artist := "Y", album := "Al", genre := "g",
      year := "1999", rating := "5", plays := "3" })

theorem C4_encoder_modes_witness :
    (choose_catalog id c4LibSmall = some (build_full_catalog c4LibSmall, FULL_DESC) ∧
        catalog_line_count (build_full_catalog c4LibSmall) = c4LibSmall.length) ∧
      (choose_catalog id c4LibMid = some (build_compact_catalog c4LibMid, COMPACT_DESC) ∧
        catalog_line_count (build_compact_catalog c4LibMid) = c4LibMid.length ∧
        build_compact_catalog c4LibMid =
          build_compact_catalog (c4LibMid.map strip_to_compact)) :=
  ⟨(C4_encoder_modes c4LibSmall id (by decide)).1 (by decide),
    (C4_encoder_modes c4LibMid id
        (by
          intro t ht
          simp only [c4LibMid, List.mem_map] at ht
          obtain ⟨i, _, rfl⟩ := ht
          rfl)).2
      (by simp [c4LibMid, MAX_TRACKS_FULL])
      (by simp [c4LibMid, MAX_TRACKS_COMPACT])⟩

/-! ## JSON values and the reply parser

`ask_claude_for_playlist` / `ask_claude` post-process the model reply:

    raw = message.content[0].text.strip()
    raw = re.sub(r'^BTBTBT[a-z]*\n?', '', raw)   (BT = backtick)
    raw = re.sub(r'\n?BTBTBT$', '', raw)
    try: data = json.loads(raw)
    except json.JSONDecodeError:
        match = re.search(r'\x7b.*\x7d', raw, re.DOTALL)
        if match: data = json.loads(match.group())
        else: raise ValueError(...raw...)
    return (data.get("playlist_name", "AI Playlist"), data.get("ids", []),
            data.get("rationale", ""))

JSON numbers are modelled as integers (the protocol exchanges integer ids
only; fractional/exponent forms are out of the modelled fragment), and
parsed object fields keep their textual order, with dict lookup returning
the last binding of a duplicated key as Python dicts do. -/

inductive Json where
  | null
  | bool (b : Bool)
  | num (n : Int)
  | str (s : String)
  | arr (elems : List Json)
  | obj (fields : List (String × Json))

/-- JSON whitespace (per RFC 8259, as accepted by `json.loads`). -/
def isJsonWs (c : Char) : Bool :=
  c = ' ' || c = '\t' || c = '\n' || c = '\r'

def skipWs (cs : List Char) : List Char :=
  cs.dropWhile isJsonWs

def hexVal (c : Char) : Option Nat :=
  if '0' ≤ c ∧ c ≤ '9' then some (c.toNat - 48)
  else if 'a' ≤ c ∧ c ≤ 'f' then some (c.toNat - 87)
  else if 'A' ≤ c ∧ c ≤ 'F' then some (c.toNat - 55)
  else none

def escChar (c : Char) : Option Char :=
  if c = '"' then some '"'
  else if c = '\\' then some '\\'
  else if c = '/' then some '/'
  else if c = 'b' then some '\x08'
  else if c = 'f' then some '\x0c'
  else if c = 'n' then some '\n'
  else if c = 'r' then some '\r'
  else if c = 't' then some '\t'
  else none

mutual

/-- Parse a JSON string body (after the opening quote) up to the closing
quote, handling escapes; raw control characters are rejected as in strict
`json.loads`.  Fuel-indexed (a byte of fuel per consumed character) so that
the function stays structurally recursive with single-level patterns. -/
def parseStringBody : Nat → List Char → Option (List Char × List Char)
  | 0, _ => none
  | _ + 1, [] => none
  | f + 1, c :: rest =>
    if c = '"' then some ([], rest)
    else if c = '\\' then parseEscape f rest
    else if c.toNat < 32 then none
    else (parseStringBody f rest).map (fun (s, r) => (c :: s, r))

/-- Parse the remainder of one escape sequence (after the backslash) and then
the rest of the string body. -/
def parseEscape : Nat → List Char → Option (List Char × List Char)
  | 0, _ => none
  | _ + 1, [] => none
  | f + 1, e :: rest =>
    if e = 'u' then
      match rest with
      | h1 :: h2 :: h3 :: h4 :: rest2 =>
        match hexVal h1, hexVal h2, hexVal h3, hexVal h4 with
        | some v1, some v2, some v3, some v4 =>
          (parseStringBody f rest2).map (fun (s, r) =>
            (Char.ofNat (((v1 * 16 + v2) * 16 + v3) * 16 + v4) :: s, r))
        | _, _, _, _ => none
      | _ => none
    else
      match escChar e with
      | some c' => (parseStringBody f rest).map (fun (s, r) => (c' :: s, r))
      | none => none

end

/-- Parse a JSON integer digit run (no leading zero unless the number is 0). -/
def parseNumDigits (cs : List Char) : Option (Nat × List Char) :=
  let ds := cs.takeWhile Char.isDigit
  if ds = [] then none
  else if ds.length > 1 ∧ ds.head? = some '0' then none
  else some (digitsVal ds, cs.dropWhile Char.isDigit)

mutual

/-- Parse one JSON value starting at the head of `cs` (no leading
whitespace).  Fuel-indexed so every function is structurally recursive. -/
def parseVal : Nat → List Char → Option (Json × List Char)
  | 0, _ => none
  | _ + 1, [] => none
  | f + 1, c :: rest =>
    if c = '"' then
      (parseStringBody (rest.length + 1) rest).map (fun (s, r) => (Json.str ⟨s⟩, r))
    else if c = '\x7b' then
      if (skipWs rest).head? = some '\x7d' then some (Json.obj [], (skipWs rest).tail)
      else
        match parseMember f (skipWs rest) with
        | some (k, v, r2) =>
          (parseMembersTail f r2).map (fun (fs, r3) => (Json.obj ((k, v) :: fs), r3))
        | none => none
    else if c = '[' then
      if (skipWs rest).head? = some ']' then some (Json.arr [], (skipWs rest).tail)
      else
        match parseVal f (skipWs rest) with
        | some (v, r2) =>
          (parseElemsTail f (skipWs r2)).map (fun (vs, r3) => (Json.arr (v :: vs), r3))
        | none => none
    else if c = '-' then
      (parseNumDigits rest).map (fun (n, r) => (Json.num (-(n : Int)), r))
    else if c = 'n' then
      if rest.take 3 = ['u', 'l', 'l'] then some (Json.null, rest.drop 3) else none
    else if c = 't' then
      if rest.take 3 = ['r', 'u', 'e'] then some (Json.bool true, rest.drop 3) else none
    else if c = 'f' then
      if rest.take 4 = ['a', 'l', 's', 'e'] then some (Json.bool false, rest.drop 4)
      else none
    else
      (parseNumDigits (c :: rest)).map (fun (n, r) => (Json.num (n : Int), r))

/-- Parse one `"key": value` object member (leading whitespace already
consumed); the returned remainder has its leading whitespace consumed. -/
def parseMember : Nat → List Char → Option (String × Json × List Char)
  | 0, _ => none
  | _ + 1, [] => none
  | f + 1, c :: rest =>
    if c = '"' then
      match parseStringBody (rest.length + 1) rest with
      | some (k, r) =>
        if (skipWs r).head? = some ':' then
          match parseVal f (skipWs (skipWs r).tail) with
          | some (v, r3) => some (⟨k⟩, v, skipWs r3)
          | none => none
        else none
      | none => none
    else none

/-- After one member: either the closing brace or `, member ...`. -/
def parseMembersTail : Nat → List Char → Option (List (String × Json) × List Char)
  | 0, _ => none
  | _ + 1, [] => none
  | f + 1, c :: rest =>
    if c = '\x7d' then some ([], rest)
    else if c = ',' then
      match parseMember f (skipWs rest) with
      | some (k, v, r2) =>
        (parseMembersTail f r2).map (fun (fs, r3) => ((k, v) :: fs, r3))
      | none => none
    else none

/-- After one array element: either the closing bracket or `, value ...`. -/
def parseElemsTail : Nat → List Char → Option (List Json × List Char)
  | 0, _ => none
  | _ + 1, [] => none
  | f + 1, c :: rest =>
    if c = ']' then some ([], rest)
    else if c = ',' then
      match parseVal f (skipWs rest) with
      | some (v, r2) =>
        (parseElemsTail f (skipWs r2)).map (fun (vs, r3) => (v :: vs, r3))
      | none => none
    else none

end

/-- `json.loads`: parse exactly one JSON value surrounded by optional
whitespace.  The fuel `cs.length + 1` dominates the parser's fuel use, which
decreases only when at least one character has been consumed. -/
def jsonParse (cs : List Char) : Option Json :=
  match parseVal (cs.length + 1) (skipWs cs) with
  | some (v, rest) => if skipWs rest = [] then some v else none
  | none => none

/-! ## Reply preprocessing, fallback span extraction, and field defaults -/

/-- The backtick character (of the markdown code fences). -/
def backtick : Char := Char.ofNat 96

/-- `re.sub(r'^BTBTBT[a-z]*\n?', '', raw)` (BT = backtick): remove one leading
fence marker line. -/
def stripFenceStart (cs : List Char) : List Char :=
  if cs.take 3 = [backtick, backtick, backtick] then
    match (cs.drop 3).dropWhile (fun c => 'a' ≤ c && c ≤ 'z') with
    | '\n' :: r2 => r2
    | r => r
  else cs

/-- `re.sub(r'\n?BTBTBT$', '', raw)`: remove one trailing fence (with its
preceding newline if present). -/
def stripFenceEnd (cs : List Char) : List Char :=
  if cs.reverse.take 3 = [backtick, backtick, backtick] then
    match cs.reverse.drop 3 with
    | '\n' :: rest2 => rest2.reverse
    | rest => rest.reverse
  else cs

/-- The prefix of `cs` ending at its last closing brace (inclusive), when one
exists. -/
def dropAfterLastClose : List Char → Option (List Char)
  | [] => none
  | c :: rest =>
    match dropAfterLastClose rest with
    | some t => some (c :: t)
    | none => if c = '\x7d' then some [c] else none

/-- `re.search(r'\x7b.*\x7d', raw, re.DOTALL)`: the leftmost-greedy span runs
from the first opening brace that has a closing brace after it up to the last
closing brace of the text. -/
def greedyBraceSpan (cs : List Char) : Option (List Char) :=
  match dropAfterLastClose cs with
  | none => none
  | some t =>
    match t.dropWhile (fun c => !(c == '\x7b')) with
    | [] => none
    | s => some s

/-- Python `dict.get(k, d)` over the parsed member list (a duplicated key
keeps its last binding, as in a dict built in textual order). -/
def dictGet (fields : List (String × Json)) (k : String) (d : Json) : Json :=
  match fields.reverse.find? (fun p => p.1 == k) with
  | some p => p.2
  | none => d

/-- The tuple returned by the reply parser (raw JSON values, exactly as
`data.get` returns them — the code never checks their types). -/
structure CurationResult where
  playlist_name : Json
  ids : Json
  rationale : Json

/-- The failure modes of the reply-parsing block. -/
inductive PyErr where
  /-- `ValueError(f"...unexpected format:\n{raw}")` — the raw (fence-stripped)
  text is carried for diagnostics. -/
  | protocolError (raw : String)
  /-- An uncaught `json.JSONDecodeError` from re-parsing the fallback span. -/
  | jsonDecodeError
  /-- `AttributeError`: `.get` called on a non-dict `json.loads` result. -/
  | attributeError
deriving DecidableEq, Repr

/-- `data.get("playlist_name", "AI Playlist"), data.get("ids", []),
data.get("rationale", "")` — or an `AttributeError` when `data` is not a
dict. -/
def extract_result (j : Json) : Except PyErr CurationResult :=
  match j with
  | Json.obj fields =>
    Except.ok
      { playlist_name := dictGet fields "playlist_name" (Json.str "AI Playlist")
        ids := dictGet fields "ids" (Json.arr [])
        rationale := dictGet fields "rationale" (Json.str "") }
  | _ => Except.error PyErr.attributeError

/-- `raw` right before the `json.loads` attempts: stripped, then both fence
substitutions. -/
def preprocess_reply (reply : String) : List Char :=
  stripFenceEnd (stripFenceStart (pyStripChars reply.data))

/-- The whole reply-parsing block of `ask_claude_for_playlist` /
`ask_claude`. -/
def parse_claude_reply (reply : String) : Except PyErr CurationResult :=
  match jsonParse (preprocess_reply reply) with
  | some data => extract_result data
  | none =>
    match greedyBraceSpan (preprocess_reply reply) with
    | some span =>
      match jsonParse span with
      | some data => extract_result data
      | none => Except.error PyErr.jsonDecodeError
    | none => Except.error (PyErr.protocolError ⟨preprocess_reply reply⟩)

/-! ### Claim C6 -/

/-- C6 as stated is false: on the reply `"\x7boops\x7d"` the direct parse
fails and the located `\x7b...\x7d` span also fails to parse — so per the
claim "no JSON object can be located" and a `CurationProtocolError` should
carry the raw text — yet the code re-raises the fallback span's
`json.JSONDecodeError`, which does not carry the reply text. -/
theorem C6_counterexample :
    jsonParse (preprocess_reply "\x7boops\x7d") = none ∧
      greedyBraceSpan (preprocess_reply "\x7boops\x7d") = some ("\x7boops\x7d").data ∧
      jsonParse ("\x7boops\x7d").data = none ∧
      parse_claude_reply "\x7boops\x7d" = Except.error PyErr.jsonDecodeError :=
  ⟨rfl, rfl, rfl, rfl⟩

/-- C6 (amended): the protocol `ValueError` carrying the (fence-stripped)
reply text is raised exactly when the direct parse fails *and no
`\x7b...\x7d` span exists at all*; when a span exists but fails to parse, the
uncaught JSON decode error propagates instead (and a reply parsing to a
non-object raises an `AttributeError`, also distinct from the protocol
error). -/
theorem C6_amended (reply : String) :
    (parse_claude_reply reply =
        Except.error (PyErr.protocolError ⟨preprocess_reply reply⟩) ↔
      jsonParse (preprocess_reply reply) = none ∧
        greedyBraceSpan (preprocess_reply reply) = none) ∧
      (∀ span, jsonParse (preprocess_reply reply) = none →
        greedyBraceSpan (preprocess_reply reply) = some span →
        jsonParse span = none →
        parse_claude_reply reply = Except.error PyErr.jsonDecodeError) := by
  have hex : ∀ (j : Json) (r : String),
      extract_result j ≠ Except.error (PyErr.protocolError r) := by
    intro j r
    cases j <;> simp [extract_result]
  constructor
  · constructor
    · intro hc
      unfold parse_claude_reply at hc
      cases h1 : jsonParse (preprocess_reply reply) with
      | some data =>
        rw [h1] at hc
        dsimp only at hc
        exact absurd hc (hex data _)
      | none =>
        rw [h1] at hc
        dsimp only at hc
        cases h2 : greedyBraceSpan (preprocess_reply reply) with
        | some span =>
          rw [h2] at hc
          dsimp only at hc
          cases h3 : jsonParse span with
          | some d =>
            rw [h3] at hc
            dsimp only at hc
            exact absurd hc (hex d _)
          | none =>
            rw [h3] at hc
            dsimp only at hc
            exact absurd hc (by simp)
        | none => exact ⟨rfl, rfl⟩
    · rintro ⟨h1, h2⟩
      unfold parse_claude_reply
      rw [h1]
      dsimp only
      rw [h2]
  · intro span h1 h2 h3
    unfold parse_claude_reply
    rw [h1]
    dsimp only
    rw [h2]
    dsimp only
    rw [h3]

/-! ## Rendering a curation reply object

To state the parsing claim for an arbitrary protocol object we render it to
text ourselves (canonical minimal JSON) and run the embedded parser on it.
String values are restricted to "plain" characters — no quote, no backslash,
no control character — so the render needs no escapes. -/

def natDigitsGo : Nat → Nat → List Char
  | 0, _ => []
  | f + 1, n =>
    if n < 10 then [Nat.digitChar n]
    else natDigitsGo f (n / 10) ++ [Nat.digitChar (n % 10)]

/-- Decimal digit representation of a natural number. -/
def natDigits (n : Nat) : List Char :=
  natDigitsGo (n + 1) n

/-- Decimal representation of a JSON integer. -/
def renderInt (i : Int) : List Char :=
  if i < 0 then '-' :: natDigits i.natAbs else natDigits i.toNat

def renderStrChars (s : String) : List Char :=
  '"' :: s.data ++ ['"']

/-- `, i2 , i3 ... ]` — the render of an id array after its first element. -/
def renderIdsRest : List Int → List Char
  | [] => [']']
  | i :: is => ',' :: (renderInt i ++ renderIdsRest is)

/-- The render of an id array. -/
def renderIds : List Int → List Char
  | [] => ['[', ']']
  | i :: is => '[' :: (renderInt i ++ renderIdsRest is)

/-- The canonical text of a protocol reply object. -/
def renderCurationChars (name : String) (ids : List Int) (rat : String) : List Char :=
  '\x7b' :: (renderStrChars "playlist_name" ++ ':' :: renderStrChars name ++
    ',' :: renderStrChars "ids" ++ ':' :: renderIds ids ++
    ',' :: renderStrChars "rationale" ++ ':' :: renderStrChars rat ++ ['\x7d'])

def renderCuration (name : String) (ids : List Int) (rat : String) : String :=
  ⟨renderCurationChars name ids rat⟩

/-- The JSON value that text denotes. -/
def curationJson (name : String) (ids : List Int) (rat : String) : Json :=
  Json.obj [("playlist_name", Json.str name),
            ("ids", Json.arr (ids.map Json.num)),
            ("rationale", Json.str rat)]

/-- The `CurationResult` the code's field extraction produces for it. -/
def curationResult (name : String) (ids : List Int) (rat : String) : CurationResult :=
  { playlist_name := Json.str name, ids := Json.arr (ids.map Json.num),
    rationale := Json.str rat }

/-- A character needing no JSON string escape. -/
def plain_char (c : Char) : Bool :=
  !(c == '"') && !(c == '\\') && decide (32 ≤ c.toNat)

def plain_str (s : String) : Bool :=
  s.data.all plain_char

/-! ### Digit facts -/

theorem digitChar_toNat : ∀ k, k < 10 → (Nat.digitChar k).toNat - 48 = k := by
  decide

theorem digitChar_ne_zero : ∀ k, 1 ≤ k → k < 10 → Nat.digitChar k ≠ '0' := by
  decide

theorem natDigitsGo_all_digit :
    ∀ (f n : Nat), ∀ c ∈ natDigitsGo f n, c.isDigit = true := by
  intro f
  induction f with
  | zero => intro n c hc; simp [natDigitsGo] at hc
  | succ f ih =>
    intro n c hc
    simp only [natDigitsGo] at hc
    split at hc
    · simp only [List.mem_singleton] at hc
      subst hc
      exact digitChar_isDigit_of_lt n (by omega)
    · rcases List.mem_append.mp hc with h | h
      · exact ih (n / 10) c h
      · simp only [List.mem_singleton] at h
        subst h
        exact digitChar_isDigit_of_lt (n % 10) (Nat.mod_lt n (by norm_num))

theorem natDigitsGo_ne_nil :
    ∀ (f n : Nat), n < f → natDigitsGo f n ≠ [] := by
  intro f
  induction f with
  | zero => intro n h; omega
  | succ f ih =>
    intro n _
    simp only [natDigitsGo]
    split
    · simp
    · simp

theorem digitsVal_append_single (xs : List Char) (d : Char) :
    digitsVal (xs ++ [d]) = 10 * digitsVal xs + (d.toNat - 48) := by
  simp [digitsVal, List.foldl_append]

theorem natDigitsGo_val :
    ∀ (f n : Nat), n < f → digitsVal (natDigitsGo f n) = n := by
  intro f
  induction f with
  | zero => intro n h; omega
  | succ f ih =>
    intro n hn
    simp only [natDigitsGo]
    split
    · rename_i h
      simp [digitsVal]
      exact digitChar_toNat n h
    · rename_i h
      rw [digitsVal_append_single, ih (n / 10) (by omega),
        digitChar_toNat (n % 10) (Nat.mod_lt n (by norm_num))]
      omega

theorem natDigitsGo_head_ne_zero :
    ∀ (f n : Nat), n < f → 1 ≤ n → (natDigitsGo f n).head? ≠ some '0' := by
  intro f
  induction f with
  | zero => intro n h; omega
  | succ f ih =>
    intro n hn h1
    simp only [natDigitsGo]
    split
    · rename_i h
      simp only [List.head?_cons]
      intro hc
      exact digitChar_ne_zero n h1 h (Option.some_inj.mp hc)
    · rename_i h
      have hne := natDigitsGo_ne_nil f (n / 10) (by omega)
      have hh := ih (n / 10) (by omega) (by omega)
      cases hgo : natDigitsGo f (n / 10) with
      | nil => exact absurd hgo hne
      | cons a tl =>
        rw [hgo] at hh
        simpa using hh

theorem natDigits_all_digit (n : Nat) : ∀ c ∈ natDigits n, c.isDigit = true :=
  natDigitsGo_all_digit (n + 1) n

theorem natDigits_ne_nil (n : Nat) : natDigits n ≠ [] :=
  natDigitsGo_ne_nil (n + 1) n (by omega)

theorem natDigits_val (n : Nat) : digitsVal (natDigits n) = n :=
  natDigitsGo_val (n + 1) n (by omega)

theorem natDigits_no_leading_zero (n : Nat) :
    ¬((natDigits n).length > 1 ∧ (natDigits n).head? = some '0') := by
  rintro ⟨hlen, hhead⟩
  by_cases h : n < 10
  · rw [natDigits, natDigitsGo, if_pos h] at hlen
    simp at hlen
  · exact natDigitsGo_head_ne_zero (n + 1) n (by omega) (by omega) hhead

/-! ### takeWhile / dropWhile across an append -/

theorem takeWhile_dropWhile_append (p : α → Bool) :
    ∀ (A rest : List α), (∀ c ∈ A, p c = true) →
      (∀ c, rest.head? = some c → p c = false) →
      (A ++ rest).takeWhile p = A ∧ (A ++ rest).dropWhile p = rest := by
  intro A
  induction A with
  | nil =>
    intro rest _ hrest
    cases rest with
    | nil => simp
    | cons r rs =>
      have := hrest r rfl
      simp [List.takeWhile_cons, List.dropWhile_cons, this]
  | cons a A ih =>
    intro rest hA hrest
    have ha := hA a (List.mem_cons_self a A)
    obtain ⟨h1, h2⟩ := ih rest (fun c hc => hA c (List.mem_cons_of_mem a hc)) hrest
    simp [List.takeWhile_cons, List.dropWhile_cons, ha, h1, h2]

/-! ### Parser round-trip lemmas -/

theorem parseNumDigits_natDigits (n : Nat) (rest : List Char)
    (hrest : ∀ c, rest.head? = some c → c.isDigit = false) :
    parseNumDigits (natDigits n ++ rest) = some (n, rest) := by
  obtain ⟨h1, h2⟩ :=
    takeWhile_dropWhile_append Char.isDigit (natDigits n) rest (natDigits_all_digit n) hrest
  rw [parseNumDigits]
  simp only [h1, h2]
  rw [if_neg (natDigits_ne_nil n), if_neg (natDigits_no_leading_zero n), natDigits_val]


theorem isDigit_ne_delims (c : Char) (h : c.isDigit = true) :
    c ≠ '"' ∧ c ≠ '\x7b' ∧ c ≠ '[' ∧ c ≠ '-' ∧ c ≠ 'n' ∧ c ≠ 't' ∧ c ≠ 'f' ∧
      c ≠ ']' ∧ c ≠ '\x7d' ∧ c ≠ ',' ∧ c ≠ ':' := by
  refine ⟨?_, ?_, ?_, ?_, ?_, ?_, ?_, ?_, ?_, ?_, ?_⟩ <;>
    (intro hc; subst hc; exact absurd h (by decide))

theorem isDigit_not_ws (c : Char) (h : c.isDigit = true) : isJsonWs c = false := by
  cases hc : isJsonWs c
  · rfl
  · exfalso
    simp only [isJsonWs, Bool.or_eq_true, decide_eq_true_eq] at hc
    rcases hc with ((h1 | h1) | h1) | h1 <;> (subst h1; exact absurd h (by decide))

theorem skipWs_cons_not_ws (c : Char) (cs : List Char) (h : isJsonWs c = false) :
    skipWs (c :: cs) = c :: cs := by
  simp [skipWs, List.dropWhile_cons, h]

/-! ### Parser branch-reduction lemmas -/

theorem parseVal_quote (f : Nat) (rest : List Char) :
    parseVal (f + 1) ('"' :: rest) =
      (parseStringBody (rest.length + 1) rest).map (fun (s, r) => (Json.str ⟨s⟩, r)) := rfl

theorem parseVal_obrace (f : Nat) (rest : List Char) :
    parseVal (f + 1) ('\x7b' :: rest) =
      (if (skipWs rest).head? = some '\x7d' then some (Json.obj [], (skipWs rest).tail)
       else
        match parseMember f (skipWs rest) with
        | some (k, v, r2) =>
          (parseMembersTail f r2).map (fun (fs, r3) => (Json.obj ((k, v) :: fs), r3))
        | none => none) := rfl

theorem parseVal_obracket (f : Nat) (rest : List Char) :
    parseVal (f + 1) ('[' :: rest) =
      (if (skipWs rest).head? = some ']' then some (Json.arr [], (skipWs rest).tail)
       else
        match parseVal f (skipWs rest) with
        | some (v, r2) =>
          (parseElemsTail f (skipWs r2)).map (fun (vs, r3) => (Json.arr (v :: vs), r3))
        | none => none) := rfl

theorem parseVal_minus (f : Nat) (rest : List Char) :
    parseVal (f + 1) ('-' :: rest) =
      (parseNumDigits rest).map (fun (n, r) => (Json.num (-(n : Int)), r)) := rfl

theorem parseVal_default (f : Nat) (c : Char) (rest : List Char)
    (h1 : c ≠ '"') (h2 : c ≠ '\x7b') (h3 : c ≠ '[') (h4 : c ≠ '-')
    (h5 : c ≠ 'n') (h6 : c ≠ 't') (h7 : c ≠ 'f') :
    parseVal (f + 1) (c :: rest) =
      (parseNumDigits (c :: rest)).map (fun (n, r) => (Json.num (n : Int), r)) := by
  rw [parseVal]
  rw [if_neg h1, if_neg h2, if_neg h3, if_neg h4, if_neg h5, if_neg h6, if_neg h7]

theorem parseStringBody_quote (f : Nat) (rest : List Char) :
    parseStringBody (f + 1) ('"' :: rest) = some ([], rest) := rfl

theorem parseStringBody_plain_cons (f : Nat) (c : Char) (rest : List Char)
    (h1 : c ≠ '"') (h2 : c ≠ '\\') (h3 : ¬(c.toNat < 32)) :
    parseStringBody (f + 1) (c :: rest) =
      (parseStringBody f rest).map (fun (s, r) => (c :: s, r)) := by
  rw [parseStringBody]
  rw [if_neg h1, if_neg h2, if_neg h3]

theorem parseMember_quote (f : Nat) (rest : List Char) :
    parseMember (f + 1) ('"' :: rest) =
      (match parseStringBody (rest.length + 1) rest with
       | some (k, r) =>
         if (skipWs r).head? = some ':' then
           match parseVal f (skipWs (skipWs r).tail) with
           | some (v, r3) => some (⟨k⟩, v, skipWs r3)
           | none => none
         else none
       | none => none) := rfl

theorem parseMembersTail_brace (f : Nat) (rest : List Char) :
    parseMembersTail (f + 1) ('\x7d' :: rest) = some ([], rest) := rfl

theorem parseMembersTail_comma (f : Nat) (rest : List Char) :
    parseMembersTail (f + 1) (',' :: rest) =
      (match parseMember f (skipWs rest) with
       | some (k, v, r2) =>
         (parseMembersTail f r2).map (fun (fs, r3) => ((k, v) :: fs, r3))
       | none => none) := by
  rw [parseMembersTail]
  rw [if_neg (by decide), if_pos rfl]

theorem parseElemsTail_bracket (f : Nat) (rest : List Char) :
    parseElemsTail (f + 1) (']' :: rest) = some ([], rest) := rfl

theorem parseElemsTail_comma (f : Nat) (rest : List Char) :
    parseElemsTail (f + 1) (',' :: rest) =
      (match parseVal f (skipWs rest) with
       | some (v, r2) =>
         (parseElemsTail f (skipWs r2)).map (fun (vs, r3) => (v :: vs, r3))
       | none => none) := by
  rw [parseElemsTail]
  rw [if_neg (by decide), if_pos rfl]

/-! ### Round-trips for rendered values -/

/-- `parseStringBody` on a plain string body. -/
theorem parseStringBody_plain :
    ∀ (s : List Char) (f : Nat) (rest : List Char), s.length + 1 ≤ f →
      (∀ c ∈ s, plain_char c = true) →
      parseStringBody f (s ++ '"' :: rest) = some (s, rest) := by
  intro s
  induction s with
  | nil =>
    intro f rest hf _
    cases f with
    | zero => omega
    | succ f => exact parseStringBody_quote f rest
  | cons c cs ih =>
    intro f rest hf hs
    cases f with
    | zero => omega
    | succ f =>
      have hc := hs c (List.mem_cons_self c cs)
      simp only [plain_char, Bool.and_eq_true, Bool.not_eq_true', beq_eq_false_iff_ne,
        ne_eq, decide_eq_true_eq] at hc
      obtain ⟨⟨hq, hb⟩, hctl⟩ := hc
      rw [List.cons_append,
        parseStringBody_plain_cons f c _ hq hb (by omega),
        ih f rest (by simp at hf; omega) (fun x hx => hs x (List.mem_cons_of_mem c hx))]
      rfl

/-- `parseVal` on a rendered plain string. -/
theorem parseVal_renderStr (f : Nat) (hf : 1 ≤ f) (s : String) (hs : plain_str s = true)
    (rest : List Char) :
    parseVal f (renderStrChars s ++ rest) = some (Json.str s, rest) := by
  cases f with
  | zero => omega
  | succ f =>
    have heq : renderStrChars s ++ rest = '"' :: (s.data ++ '"' :: rest) := by
      simp [renderStrChars]
    rw [heq, parseVal_quote,
      parseStringBody_plain s.data ((s.data ++ '"' :: rest).length + 1) rest
        (by simp) (by simpa [plain_str, List.all_eq_true] using hs)]
    rfl

/-- `parseVal` on a rendered natural number. -/
theorem parseVal_natDigits (f : Nat) (hf : 1 ≤ f) (n : Nat) (rest : List Char)
    (hrest : ∀ c, rest.head? = some c → c.isDigit = false) :
    parseVal f (natDigits n ++ rest) = some (Json.num (n : Int), rest) := by
  cases f with
  | zero => omega
  | succ f =>
    cases hnd : natDigits n with
    | nil => exact absurd hnd (natDigits_ne_nil n)
    | cons d ds =>
      have hd : d.isDigit = true := by
        apply natDigits_all_digit n
        rw [hnd]
        exact List.mem_cons_self d ds
      obtain ⟨h1, h2, h3, h4, h5, h6, h7, _, _, _, _⟩ := isDigit_ne_delims d hd
      rw [List.cons_append, parseVal_default f d _ h1 h2 h3 h4 h5 h6 h7,
        ← List.cons_append, ← hnd, parseNumDigits_natDigits n rest hrest]
      rfl

/-- `parseVal` on a rendered integer. -/
theorem parseVal_renderInt (f : Nat) (hf : 1 ≤ f) (i : Int) (rest : List Char)
    (hrest : ∀ c, rest.head? = some c → c.isDigit = false) :
    parseVal f (renderInt i ++ rest) = some (Json.num i, rest) := by
  rw [renderInt]
  by_cases hneg : i < 0
  · rw [if_pos hneg]
    cases f with
    | zero => omega
    | succ f =>
      rw [List.cons_append, parseVal_minus, parseNumDigits_natDigits i.natAbs rest hrest]
      have hi : -((i.natAbs : Nat) : Int) = i := by omega
      simp only [Option.map_some']
      rw [hi]
  · rw [if_neg hneg]
    have hi : ((i.toNat : Nat) : Int) = i := Int.toNat_of_nonneg (by omega)
    rw [parseVal_natDigits f hf i.toNat rest hrest, hi]

/-! ### Shapes of the rendered pieces -/

theorem renderInt_shape (i : Int) :
    ∃ c tl, renderInt i = c :: tl ∧ (c = '-' ∨ c.isDigit = true) := by
  rw [renderInt]
  by_cases h : i < 0
  · rw [if_pos h]
    exact ⟨'-', _, rfl, Or.inl rfl⟩
  · rw [if_neg h]
    cases hnd : natDigits i.toNat with
    | nil => exact absurd hnd (natDigits_ne_nil _)
    | cons d tl =>
      refine ⟨d, tl, rfl, Or.inr ?_⟩
      apply natDigits_all_digit
      rw [hnd]
      exact List.mem_cons_self d tl

theorem renderInt_length (i : Int) : 1 ≤ (renderInt i).length := by
  obtain ⟨c, tl, hc, _⟩ := renderInt_shape i
  rw [hc]
  simp

theorem skipWs_renderInt_append (i : Int) (X : List Char) :
    skipWs (renderInt i ++ X) = renderInt i ++ X := by
  obtain ⟨c, tl, hc, hd⟩ := renderInt_shape i
  rw [hc, List.cons_append]
  apply skipWs_cons_not_ws
  rcases hd with h | h
  · subst h; decide
  · exact isDigit_not_ws c h

theorem head?_renderInt_append (i : Int) (X : List Char) :
    ∃ c, (renderInt i ++ X).head? = some c ∧ (c = '-' ∨ c.isDigit = true) := by
  obtain ⟨c, tl, hc, hd⟩ := renderInt_shape i
  exact ⟨c, by rw [hc, List.cons_append]; rfl, hd⟩

theorem renderIdsRest_shape (is : List Int) :
    (∃ tl, renderIdsRest is = ',' :: tl) ∨ renderIdsRest is = [']'] := by
  cases is with
  | nil => exact Or.inr rfl
  | cons i is => exact Or.inl ⟨_, rfl⟩

theorem renderIdsRest_append_facts (is : List Int) (X : List Char) :
    skipWs (renderIdsRest is ++ X) = renderIdsRest is ++ X ∧
      (∀ c, (renderIdsRest is ++ X).head? = some c → c.isDigit = false) := by
  rcases renderIdsRest_shape is with ⟨tl, h⟩ | h <;> rw [h]
  · rw [List.cons_append]
    refine ⟨skipWs_cons_not_ws _ _ (by decide), ?_⟩
    intro c hc
    rw [List.head?_cons] at hc
    rw [← Option.some_inj.mp hc]
    decide
  · rw [List.singleton_append]
    refine ⟨skipWs_cons_not_ws _ _ (by decide), ?_⟩
    intro c hc
    rw [List.head?_cons] at hc
    rw [← Option.some_inj.mp hc]
    decide

theorem renderIds_cons (ids : List Int) : ∃ tl, renderIds ids = '[' :: tl := by
  cases ids with
  | nil => exact ⟨_, rfl⟩
  | cons i is => exact ⟨_, rfl⟩

theorem skipWs_renderIds_append (ids : List Int) (X : List Char) :
    skipWs (renderIds ids ++ X) = renderIds ids ++ X := by
  obtain ⟨tl, h⟩ := renderIds_cons ids
  rw [h, List.cons_append]
  exact skipWs_cons_not_ws _ _ (by decide)

theorem skipWs_renderStr_append (k : String) (X : List Char) :
    skipWs (renderStrChars k ++ X) = renderStrChars k ++ X := by
  have h : renderStrChars k ++ X = '"' :: (k.data ++ '"' :: X) := by
    simp [renderStrChars]
  rw [h]
  exact skipWs_cons_not_ws _ _ (by decide)

theorem head?_renderStr_append (k : String) (X : List Char) :
    (renderStrChars k ++ X).head? = some '"' := by
  have h : renderStrChars k ++ X = '"' :: (k.data ++ '"' :: X) := by
    simp [renderStrChars]
  rw [h]
  rfl

/-! ### Round-trip of the rendered id array -/

theorem parseElemsTail_renderIdsRest :
    ∀ (is : List Int) (f : Nat) (rest : List Char), is.length + 1 ≤ f →
      parseElemsTail f (renderIdsRest is ++ rest) = some (is.map Json.num, rest) := by
  intro is
  induction is with
  | nil =>
    intro f rest hf
    cases f with
    | zero => omega
    | succ f => exact parseElemsTail_bracket f rest
  | cons i is ih =>
    intro f rest hf
    cases f with
    | zero => omega
    | succ f =>
      simp only [List.length_cons] at hf
      have h1 : renderIdsRest (i :: is) ++ rest =
          ',' :: (renderInt i ++ (renderIdsRest is ++ rest)) := by
        simp [renderIdsRest]
      rw [h1, parseElemsTail_comma, skipWs_renderInt_append,
        parseVal_renderInt f (by omega) i (renderIdsRest is ++ rest)
          (renderIdsRest_append_facts is rest).2]
      dsimp only
      rw [(renderIdsRest_append_facts is rest).1, ih f rest (by omega)]
      rfl

theorem parseVal_renderIds (ids : List Int) (f : Nat) (rest : List Char)
    (hf : ids.length + 2 ≤ f) :
    parseVal f (renderIds ids ++ rest) = some (Json.arr (ids.map Json.num), rest) := by
  cases f with
  | zero => omega
  | succ f =>
    cases ids with
    | nil => rfl
    | cons i is =>
      simp only [List.length_cons] at hf
      have h1 : renderIds (i :: is) ++ rest =
          '[' :: (renderInt i ++ (renderIdsRest is ++ rest)) := by
        simp [renderIds]
      rw [h1, parseVal_obracket, skipWs_renderInt_append]
      obtain ⟨c, hc, hcd⟩ := head?_renderInt_append i (renderIdsRest is ++ rest)
      have hne : ¬((renderInt i ++ (renderIdsRest is ++ rest)).head? = some ']') := by
        rw [hc]
        intro hcc
        have hcv : c = ']' := Option.some_inj.mp hcc
        subst hcv
        rcases hcd with h | h
        · exact absurd h (by decide)
        · exact absurd h (by decide)
      rw [if_neg hne,
        parseVal_renderInt f (by omega) i (renderIdsRest is ++ rest)
          (renderIdsRest_append_facts is rest).2]
      dsimp only
      rw [(renderIdsRest_append_facts is rest).1,
        parseElemsTail_renderIdsRest is f rest (by omega)]
      rfl

/-! ### Round-trip of one rendered member and of the whole reply object -/

theorem parseMember_rendered (f : Nat) (k : String) (hk : plain_str k = true)
    (V REST : List Char) (v : Json)
    (hV : parseVal f (V ++ REST) = some (v, REST))
    (hVws : skipWs (V ++ REST) = V ++ REST)
    (hRws : skipWs REST = REST) :
    parseMember (f + 1) (renderStrChars k ++ ':' :: (V ++ REST)) = some (k, v, REST) := by
  have heq : renderStrChars k ++ ':' :: (V ++ REST) =
      '"' :: (k.data ++ '"' :: (':' :: (V ++ REST))) := by
    simp [renderStrChars]
  rw [heq, parseMember_quote,
    parseStringBody_plain k.data _ _
      (by simp only [List.length_append, List.length_cons]; omega)
      (by simpa [plain_str, List.all_eq_true] using hk)]
  dsimp only
  rw [skipWs_cons_not_ws ':' _ (by decide)]
  simp only [List.head?_cons, List.tail_cons]
  rw [if_pos trivial, hVws, hV]
  dsimp only
  rw [hRws]

theorem parseVal_renderCuration (name rat : String) (ids : List Int)
    (hname : plain_str name = true) (hrat : plain_str rat = true)
    (f : Nat) (rest : List Char) (hf : ids.length + 5 ≤ f) :
    parseVal f (renderCurationChars name ids rat ++ rest) =
      some (curationJson name ids rat, rest) := by
  cases f with
  | zero => omega
  | succ F =>
    cases F with
    | zero => omega
    | succ F1 =>
      cases F1 with
      | zero => omega
      | succ F2 =>
        cases F2 with
        | zero => omega
        | succ F3 =>
          have heq : renderCurationChars name ids rat ++ rest =
              '\x7b' :: (renderStrChars "playlist_name" ++ ':' ::
                (renderStrChars name ++ (',' :: (renderStrChars "ids" ++ ':' ::
                  (renderIds ids ++ (',' :: (renderStrChars "rationale" ++ ':' ::
                    (renderStrChars rat ++ ('\x7d' :: rest))))))))) := by
            simp [renderCurationChars]
          rw [heq, parseVal_obrace, skipWs_renderStr_append, head?_renderStr_append,
            if_neg (by decide)]
          -- first member: "playlist_name": <name>
          rw [parseMember_rendered _ "playlist_name" (by decide)
              (renderStrChars name) _ (Json.str name)
              (parseVal_renderStr _ (by omega) name hname _)
              (skipWs_renderStr_append name _)
              (skipWs_cons_not_ws ',' _ (by decide))]
          dsimp only
          -- second member: , "ids": [...]
          rw [parseMembersTail_comma, skipWs_renderStr_append]
          rw [parseMember_rendered _ "ids" (by decide)
              (renderIds ids) _ (Json.arr (ids.map Json.num))
              (parseVal_renderIds ids _ _ (by omega))
              (skipWs_renderIds_append ids _)
              (skipWs_cons_not_ws ',' _ (by decide))]
          dsimp only
          -- third member: , "rationale": <rat>
          rw [parseMembersTail_comma, skipWs_renderStr_append]
          rw [parseMember_rendered _ "rationale" (by decide)
              (renderStrChars rat) _ (Json.str rat)
              (parseVal_renderStr _ (by omega) rat hrat _)
              (skipWs_renderStr_append rat _)
              (skipWs_cons_not_ws '\x7d' _ (by decide))]
          dsimp only
          rw [parseMembersTail_brace]
          rfl

/-! ### Fuel-size bound and the top-level parse of a rendered reply -/

theorem renderIdsRest_length (is : List Int) :
    is.length + 1 ≤ (renderIdsRest is).length := by
  induction is with
  | nil => simp [renderIdsRest]
  | cons i is ih =>
    simp only [renderIdsRest, List.length_cons, List.length_append]
    have := renderInt_length i
    omega

theorem renderIds_length (ids : List Int) :
    ids.length + 2 ≤ (renderIds ids).length := by
  cases ids with
  | nil => simp [renderIds]
  | cons i is =>
    simp only [renderIds, List.length_cons, List.length_append]
    have h1 := renderInt_length i
    have h2 := renderIdsRest_length is
    omega

theorem renderCurationChars_length (name rat : String) (ids : List Int) :
    ids.length + 5 ≤ (renderCurationChars name ids rat).length + 1 := by
  simp only [renderCurationChars, renderStrChars, List.length_cons, List.length_append]
  have := renderIds_length ids
  omega

theorem jsonParse_renderCuration (name rat : String) (ids : List Int)
    (hname : plain_str name = true) (hrat : plain_str rat = true) :
    jsonParse (renderCurationChars name ids rat) = some (curationJson name ids rat) := by
  rw [jsonParse]
  have h0 : skipWs (renderCurationChars name ids rat) =
      renderCurationChars name ids rat := by
    rw [renderCurationChars]
    exact skipWs_cons_not_ws _ _ (by decide)
  rw [h0]
  have hp := parseVal_renderCuration name rat ids hname hrat
    ((renderCurationChars name ids rat).length + 1) []
    (renderCurationChars_length name rat ids)
  rw [List.append_nil] at hp
  rw [hp]
  rfl

/-! ### Preprocessing no-ops and fence stripping on the reply forms -/

/-- The middle of a rendered reply object, between the braces. -/
def renderCurationMid (name : String) (ids : List Int) (rat : String) : List Char :=
  renderStrChars "playlist_name" ++ ':' :: renderStrChars name ++
    ',' :: renderStrChars "ids" ++ ':' :: renderIds ids ++
    ',' :: renderStrChars "rationale" ++ ':' :: renderStrChars rat

theorem renderCurationChars_split (name rat : String) (ids : List Int) :
    renderCurationChars name ids rat =
      '\x7b' :: (renderCurationMid name ids rat ++ ['\x7d']) := by
  simp [renderCurationChars, renderCurationMid]

theorem dropWhile_append_head_not (p : α → Bool) (xs ys : List α)
    (hy : ∀ c, ys.head? = some c → p c = false) :
    List.dropWhile p (xs ++ ys) = List.dropWhile p xs ++ ys := by
  rw [List.dropWhile_append]
  split
  · rename_i h
    rw [List.isEmpty_iff] at h
    rw [h, List.nil_append]
    cases ys with
    | nil => rfl
    | cons c cs => simp [List.dropWhile_cons, hy c rfl]
  · rfl

theorem dropEndWhile_append_last_not (p : α → Bool) (xs ys : List α)
    (hx : ∀ c, xs.reverse.head? = some c → p c = false) :
    dropEndWhile p (xs ++ ys) = xs ++ dropEndWhile p ys := by
  rw [dropEndWhile, dropEndWhile, List.reverse_append,
    dropWhile_append_head_not p ys.reverse xs.reverse hx, List.reverse_append,
    List.reverse_reverse]

theorem pyStripChars_sandwich (c d : Char) (M : List Char)
    (hc : isPySpace c = false) (hd : isPySpace d = false) :
    pyStripChars (c :: (M ++ [d])) = c :: (M ++ [d]) := by
  rw [pyStripChars, List.dropWhile_cons, if_neg (by simp [hc])]
  have hx : ∀ e, (c :: (M ++ [d])).reverse.head? = some e → isPySpace e = false := by
    intro e he
    have hrev : (c :: (M ++ [d])).reverse = d :: (M.reverse ++ [c]) := by simp
    rw [hrev, List.head?_cons] at he
    rw [← Option.some_inj.mp he]
    exact hd
  have := dropEndWhile_append_last_not isPySpace (c :: (M ++ [d])) [] hx
  simpa [dropEndWhile] using this

theorem stripFenceStart_no_fence (cs : List Char)
    (h : ∀ c, cs.head? = some c → c ≠ backtick) : stripFenceStart cs = cs := by
  rw [stripFenceStart, if_neg]
  intro hc
  cases cs with
  | nil => simp at hc
  | cons c cs' =>
    have : c = backtick := by
      have := congrArg List.head? hc
      simpa [List.take] using this
    exact h c rfl this

theorem stripFenceEnd_no_fence (cs : List Char)
    (h : ∀ c, cs.reverse.head? = some c → c ≠ backtick) : stripFenceEnd cs = cs := by
  rw [stripFenceEnd, if_neg]
  intro hc
  cases hrev : cs.reverse with
  | nil => rw [hrev] at hc; simp at hc
  | cons c cs' =>
    rw [hrev] at hc
    have : c = backtick := by
      have := congrArg List.head? hc
      simpa [List.take] using this
    exact h c (by rw [hrev]; rfl) this

/-! ### The greedy brace span on a wrapped object -/

theorem dropAfterLastClose_no_close :
    ∀ (ys : List Char), '\x7d' ∉ ys → dropAfterLastClose ys = none := by
  intro ys
  induction ys with
  | nil => intro _; rfl
  | cons c cs ih =>
    intro h
    rw [dropAfterLastClose, ih (fun hm => h (List.mem_cons_of_mem c hm))]
    dsimp only
    rw [if_neg (fun hc => h (by rw [hc]; exact List.mem_cons_self _ _))]

theorem dropAfterLastClose_append_no_close (xs ys : List Char) (h : '\x7d' ∉ ys) :
    dropAfterLastClose (xs ++ ys) = dropAfterLastClose xs := by
  induction xs with
  | nil => simpa using dropAfterLastClose_no_close ys h
  | cons c xs ih =>
    rw [List.cons_append, dropAfterLastClose, dropAfterLastClose, ih]

theorem dropAfterLastClose_close_end (zs : List Char) :
    dropAfterLastClose (zs ++ ['\x7d']) = some (zs ++ ['\x7d']) := by
  induction zs with
  | nil => rfl
  | cons c zs ih =>
    rw [List.cons_append, dropAfterLastClose, ih]

theorem dropWhile_not_brace (p1 : List Char) (h : '\x7b' ∉ p1) (X : List Char) :
    List.dropWhile (fun c => !(c == '\x7b')) (p1 ++ '\x7b' :: X) = '\x7b' :: X := by
  induction p1 with
  | nil => simp [List.dropWhile_cons]
  | cons c cs ih =>
    rw [List.cons_append, List.dropWhile_cons,
      if_pos (by simp; exact fun hc => h (by rw [hc]; exact List.mem_cons_self _ _)),
      ih (fun hm => h (List.mem_cons_of_mem c hm))]

theorem greedyBraceSpan_wrapped (p1 p2 MID : List Char)
    (h1 : '\x7b' ∉ p1) (h2 : '\x7d' ∉ p2) :
    greedyBraceSpan (p1 ++ ('\x7b' :: (MID ++ ['\x7d'])) ++ p2) =
      some ('\x7b' :: (MID ++ ['\x7d'])) := by
  have hshape : p1 ++ ('\x7b' :: (MID ++ ['\x7d'])) ++ p2 =
      ((p1 ++ '\x7b' :: MID) ++ ['\x7d']) ++ p2 := by simp
  rw [greedyBraceSpan, hshape, dropAfterLastClose_append_no_close _ _ h2,
    dropAfterLastClose_close_end]
  dsimp only
  have hshape2 : (p1 ++ '\x7b' :: MID) ++ ['\x7d'] = p1 ++ '\x7b' :: (MID ++ ['\x7d']) := by
    simp
  rw [hshape2, dropWhile_not_brace p1 h1]

/-! ### Field extraction -/

theorem extract_curationJson (name rat : String) (ids : List Int) :
    extract_result (curationJson name ids rat) =
      Except.ok (curationResult name ids rat) := rfl

theorem dictGet_missing (fields : List (String × Json)) (k : String) (d : Json)
    (h : fields.all (fun p => !(p.1 == k)) = true) : dictGet fields k d = d := by
  rw [dictGet]
  have hnone : fields.reverse.find? (fun p => p.1 == k) = none := by
    apply List.find?_eq_none.mpr
    intro p hp
    have := (List.all_eq_true.mp h) p (List.mem_reverse.mp hp)
    simpa using this
  rw [hnone]

/-! ### Preprocessing of the three reply forms -/

theorem preprocess_bare (name rat : String) (ids : List Int) :
    preprocess_reply (renderCuration name ids rat) = renderCurationChars name ids rat := by
  have hsplit := renderCurationChars_split name rat ids
  have h1 : ∀ c, ('\x7b' :: (renderCurationMid name ids rat ++ ['\x7d'])).head? = some c →
      c ≠ backtick := by
    intro c hcc
    rw [List.head?_cons] at hcc
    rw [← Option.some_inj.mp hcc]
    decide
  have h2 : ∀ c,
      ('\x7b' :: (renderCurationMid name ids rat ++ ['\x7d'])).reverse.head? = some c →
      c ≠ backtick := by
    intro c hcc
    have hrev : ('\x7b' :: (renderCurationMid name ids rat ++ ['\x7d'])).reverse =
        '\x7d' :: ((renderCurationMid name ids rat).reverse ++ ['\x7b']) := by simp
    rw [hrev, List.head?_cons] at hcc
    rw [← Option.some_inj.mp hcc]
    decide
  show stripFenceEnd (stripFenceStart (pyStripChars (renderCurationChars name ids rat))) = _
  rw [hsplit, pyStripChars_sandwich _ _ _ (by decide) (by decide),
    stripFenceStart_no_fence _ h1, stripFenceEnd_no_fence _ h2]

theorem preprocess_fenced (name rat : String) (ids : List Int) :
    preprocess_reply ("```json\n" ++ renderCuration name ids rat ++ "\n```") =
      renderCurationChars name ids rat := by
  have hdata : ("```json\n" ++ renderCuration name ids rat ++ "\n```").data =
      backtick :: backtick :: backtick :: 'j' :: 's' :: 'o' :: 'n' :: '\n' ::
        (renderCurationChars name ids rat ++ ['\n', backtick, backtick, backtick]) := by
    show ("```json\n".data ++ (renderCuration name ids rat).data) ++ "\n```".data = _
    have hj : "```json\n".data =
        [backtick, backtick, backtick, 'j', 's', 'o', 'n', '\n'] := rfl
    have ht : "\n```".data = ['\n', backtick, backtick, backtick] := rfl
    rw [hj, ht]
    simp [renderCuration]
  show stripFenceEnd (stripFenceStart (pyStripChars _)) = _
  rw [hdata]
  have hsand : pyStripChars
      (backtick :: backtick :: backtick :: 'j' :: 's' :: 'o' :: 'n' :: '\n' ::
        (renderCurationChars name ids rat ++ ['\n', backtick, backtick, backtick])) =
      backtick :: backtick :: backtick :: 'j' :: 's' :: 'o' :: 'n' :: '\n' ::
        (renderCurationChars name ids rat ++ ['\n', backtick, backtick, backtick]) := by
    have hshape : backtick :: backtick :: backtick :: 'j' :: 's' :: 'o' :: 'n' :: '\n' ::
        (renderCurationChars name ids rat ++ ['\n', backtick, backtick, backtick]) =
        backtick :: ((backtick :: backtick :: 'j' :: 's' :: 'o' :: 'n' :: '\n' ::
          (renderCurationChars name ids rat ++ ['\n', backtick, backtick])) ++
            [backtick]) := by
      simp
    rw [hshape, pyStripChars_sandwich _ _ _ (by decide) (by decide)]
  rw [hsand]
  have hsfs : stripFenceStart
      (backtick :: backtick :: backtick :: 'j' :: 's' :: 'o' :: 'n' :: '\n' ::
        (renderCurationChars name ids rat ++ ['\n', backtick, backtick, backtick])) =
      renderCurationChars name ids rat ++ ['\n', backtick, backtick, backtick] := by
    rw [stripFenceStart]
    have hcond : List.take 3
        (backtick :: backtick :: backtick :: 'j' :: 's' :: 'o' :: 'n' :: '\n' ::
          (renderCurationChars name ids rat ++ ['\n', backtick, backtick, backtick])) =
        [backtick, backtick, backtick] := rfl
    rw [if_pos hcond]
    show (match List.dropWhile (fun c => 'a' ≤ c && c ≤ 'z')
        ('j' :: 's' :: 'o' :: 'n' :: '\n' ::
          (renderCurationChars name ids rat ++ ['\n', backtick, backtick, backtick])) with
      | '\n' :: r2 => r2
      | r => r) = _
    rw [List.dropWhile_cons, if_pos (by decide), List.dropWhile_cons, if_pos (by decide),
      List.dropWhile_cons, if_pos (by decide), List.dropWhile_cons, if_pos (by decide),
      List.dropWhile_cons, if_neg (by decide)]
    rfl
  rw [hsfs]
  have hrev : (renderCurationChars name ids rat ++
      ['\n', backtick, backtick, backtick]).reverse =
      backtick :: backtick :: backtick :: '\n' ::
        (renderCurationChars name ids rat).reverse := by
    simp
  rw [stripFenceEnd, hrev]
  have hcond2 : List.take 3 (backtick :: backtick :: backtick :: '\n' ::
      (renderCurationChars name ids rat).reverse) = [backtick, backtick, backtick] := rfl
  rw [if_pos hcond2]
  show (renderCurationChars name ids rat).reverse.reverse = _
  rw [List.reverse_reverse]

theorem mem_of_mem_dropEndWhile (p : α → Bool) (l : List α) (c : α)
    (h : c ∈ dropEndWhile p l) : c ∈ l := by
  rw [dropEndWhile] at h
  rw [List.mem_reverse] at h
  have := (List.dropWhile_sublist p).mem h
  rwa [List.mem_reverse] at this

/-- Stripping and fence removal on a reply made of brace-free, backtick-free
prose around a rendered object: the result is the object with (possibly
empty) stripped prose around it, still brace- and backtick-free. -/
theorem preprocess_prose (name rat : String) (ids : List Int) (p1 p2 : String)
    (hp1 : ∀ c ∈ p1.data, c ≠ '\x7b' ∧ c ≠ '\x7d' ∧ c ≠ backtick)
    (hp2 : ∀ c ∈ p2.data, c ≠ '\x7b' ∧ c ≠ '\x7d' ∧ c ≠ backtick) :
    ∃ q1 q2,
      preprocess_reply (p1 ++ renderCuration name ids rat ++ p2) =
        q1 ++ (renderCurationChars name ids rat ++ q2) ∧
      (∀ c ∈ q1, c ≠ '\x7b' ∧ c ≠ '\x7d' ∧ c ≠ backtick) ∧
      (∀ c ∈ q2, c ≠ '\x7b' ∧ c ≠ '\x7d' ∧ c ≠ backtick) := by
  set CH := renderCurationChars name ids rat with hCH
  set q1 := List.dropWhile isPySpace p1.data with hq1
  set q2 := dropEndWhile isPySpace p2.data with hq2
  have hq1mem : ∀ c ∈ q1, c ≠ '\x7b' ∧ c ≠ '\x7d' ∧ c ≠ backtick := fun c hc =>
    hp1 c ((List.dropWhile_sublist isPySpace).mem hc)
  have hq2mem : ∀ c ∈ q2, c ≠ '\x7b' ∧ c ≠ '\x7d' ∧ c ≠ backtick := fun c hc =>
    hp2 c (mem_of_mem_dropEndWhile isPySpace p2.data c hc)
  refine ⟨q1, q2, ?_, hq1mem, hq2mem⟩
  have hdata : (p1 ++ renderCuration name ids rat ++ p2).data =
      p1.data ++ (CH ++ p2.data) := by
    show (p1.data ++ (renderCuration name ids rat).data) ++ p2.data = _
    simp [renderCuration, hCH]
  show stripFenceEnd (stripFenceStart (pyStripChars _)) = _
  rw [hdata]
  -- str.strip(): the leading strip stops at the object's opening brace, the
  -- trailing strip stops at its closing brace
  have hstrip : pyStripChars (p1.data ++ (CH ++ p2.data)) = q1 ++ (CH ++ q2) := by
    rw [pyStripChars,
      dropWhile_append_head_not isPySpace p1.data (CH ++ p2.data) ?hhd]
    case hhd =>
      intro c hc
      rw [hCH, renderCurationChars_split, List.cons_append, List.head?_cons] at hc
      rw [← Option.some_inj.mp hc]
      decide
    have hshape : q1 ++ (CH ++ p2.data) = (q1 ++ CH) ++ p2.data := by simp
    rw [hshape, dropEndWhile_append_last_not isPySpace (q1 ++ CH) p2.data ?hlast]
    case hlast =>
      intro c hc
      have hrev : (q1 ++ CH).reverse =
          '\x7d' :: (((renderCurationMid name ids rat).reverse ++ ['\x7b']) ++
            q1.reverse) := by
        rw [hCH, renderCurationChars_split]
        simp
      rw [hrev, List.head?_cons] at hc
      rw [← Option.some_inj.mp hc]
      decide
    simp
  rw [hstrip]
  -- both fence substitutions are no-ops
  have hhead : ∀ c, (q1 ++ (CH ++ q2)).head? = some c → c ≠ backtick := by
    intro c hc
    cases hq1e : q1 with
    | nil =>
      rw [hq1e, List.nil_append, hCH, renderCurationChars_split, List.cons_append,
        List.head?_cons] at hc
      rw [← Option.some_inj.mp hc]
      decide
    | cons a q1' =>
      rw [hq1e, List.cons_append, List.head?_cons] at hc
      rw [← Option.some_inj.mp hc]
      exact (hq1mem a (by rw [hq1e]; exact List.mem_cons_self a q1')).2.2
  have hlast2 : ∀ c, (q1 ++ (CH ++ q2)).reverse.head? = some c → c ≠ backtick := by
    intro c hc
    cases hq2e : q2.reverse with
    | nil =>
      have : (q1 ++ (CH ++ q2)).reverse = '\x7d' ::
          (((renderCurationMid name ids rat).reverse ++ ['\x7b']) ++ q1.reverse) := by
        have hq2nil : q2 = [] := by
          have := congrArg List.reverse hq2e
          simpa using this
        rw [hq2nil, hCH, renderCurationChars_split]
        simp
      rw [this, List.head?_cons] at hc
      rw [← Option.some_inj.mp hc]
      decide
    | cons a q2' =>
      have : (q1 ++ (CH ++ q2)).reverse = a :: (q2' ++ (CH.reverse ++ q1.reverse)) := by
        rw [List.reverse_append, List.reverse_append, hq2e]
        simp
      rw [this, List.head?_cons] at hc
      rw [← Option.some_inj.mp hc]
      have ha : a ∈ q2 := by
        rw [← List.mem_reverse, hq2e]
        exact List.mem_cons_self a q2'
      exact (hq2mem a ha).2.2
  rw [stripFenceStart_no_fence _ hhead, stripFenceEnd_no_fence _ hlast2]

/-! ### Claim C5 -/

/-- C5: a protocol object (keys `playlist_name`, `ids`, `rationale`; plain
string values, integer ids) parses to the same `CurationResult` whether the
reply is the bare object, the object wrapped in a markdown code fence, or the
object surrounded by prose — prose free of braces and backticks and making
the direct parse fail, so the fallback span extraction is exercised.
Moreover a missing key defaults to `"AI Playlist"` / the empty list / the
empty string respectively, and field extraction always wires those defaults
through `dict.get`. -/
theorem C5_reply_forms (name rat : String) (ids : List Int) (p1 p2 : String)
    (hname : plain_str name = true) (hrat : plain_str rat = true)
    (hp1 : ∀ c ∈ p1.data, c ≠ '\x7b' ∧ c ≠ '\x7d' ∧ c ≠ backtick)
    (hp2 : ∀ c ∈ p2.data, c ≠ '\x7b' ∧ c ≠ '\x7d' ∧ c ≠ backtick)
    (hfail : jsonParse
      (preprocess_reply (p1 ++ renderCuration name ids rat ++ p2)) = none) :
    parse_claude_reply (renderCuration name ids rat) =
        Except.ok (curationResult name ids rat) ∧
      parse_claude_reply ("```json\n" ++ renderCuration name ids rat ++ "\n```") =
        Except.ok (curationResult name ids rat) ∧
      parse_claude_reply (p1 ++ renderCuration name ids rat ++ p2) =
        Except.ok (curationResult name ids rat) ∧
      (∀ fields, fields.all (fun p => !(p.1 == "playlist_name")) = true →
        dictGet fields "playlist_name" (Json.str "AI Playlist") =
          Json.str "AI Playlist") ∧
      (∀ fields, fields.all (fun p => !(p.1 == "ids")) = true →
        dictGet fields "ids" (Json.arr []) = Json.arr []) ∧
      (∀ fields, fields.all (fun p => !(p.1 == "rationale")) = true →
        dictGet fields "rationale" (Json.str "") = Json.str "") ∧
      (∀ fields, extract_result (Json.obj fields) = Except.ok
        { playlist_name := dictGet fields "playlist_name" (Json.str "AI Playlist")
          ids := dictGet fields "ids" (Json.arr [])
          rationale := dictGet fields "rationale" (Json.str "") }) := by
  refine ⟨?_, ?_, ?_, ?_, ?_, ?_, ?_⟩
  · unfold parse_claude_reply
    rw [preprocess_bare name rat ids, jsonParse_renderCuration name rat ids hname hrat]
    exact extract_curationJson name rat ids
  · unfold parse_claude_reply
    rw [preprocess_fenced name rat ids, jsonParse_renderCuration name rat ids hname hrat]
    exact extract_curationJson name rat ids
  · obtain ⟨q1, q2, hpp, hq1, hq2⟩ := preprocess_prose name rat ids p1 p2 hp1 hp2
    unfold parse_claude_reply
    rw [hfail]
    dsimp only
    rw [hpp]
    have hsplit := renderCurationChars_split name rat ids
    have hshape : q1 ++ (renderCurationChars name ids rat ++ q2) =
        q1 ++ ('\x7b' :: (renderCurationMid name ids rat ++ ['\x7d'])) ++ q2 := by
      rw [hsplit]
      simp
    rw [hshape, greedyBraceSpan_wrapped q1 q2 (renderCurationMid name ids rat)
      (fun hm => (hq1 _ hm).1 rfl) (fun hm => (hq2 _ hm).2.1 rfl), ← hsplit]
    dsimp only
    rw [jsonParse_renderCuration name rat ids hname hrat]
    exact extract_curationJson name rat ids
  · intro fields h
    exact dictGet_missing fields "playlist_name" _ h
  · intro fields h
    exact dictGet_missing fields "ids" _ h
  · intro fields h
    exact dictGet_missing fields "rationale" _ h
  · intro fields
    rfl

theorem C5_reply_forms_witness :
    parse_claude_reply (renderCuration "Test" [1, 2] "ok") =
        Except.ok (curationResult "Test" [1, 2] "ok") ∧
      parse_claude_reply ("```json\n" ++ renderCuration "Test" [1, 2] "ok" ++ "\n```") =
        Except.ok (curationResult "Test" [1, 2] "ok") ∧
      parse_claude_reply ("Answer: " ++ renderCuration "Test" [1, 2] "ok" ++ " Done.") =
        Except.ok (curationResult "Test" [1, 2] "ok") ∧
      dictGet [] "playlist_name" (Json.str "AI Playlist") = Json.str "AI Playlist" ∧
      dictGet [] "ids" (Json.arr []) = Json.arr [] ∧
      dictGet [] "rationale" (Json.str "") = Json.str "" ∧
      extract_result (Json.obj []) = Except.ok
        { playlist_name := Json.str "AI Playlist", ids := Json.arr [],
          rationale := Json.str "" } := by
  have h := C5_reply_forms "Test" "ok" [1, 2] "Answer: " " Done." (by decide) (by decide)
    (by decide) (by decide) (by rfl)
  exact ⟨h.1, h.2.1, h.2.2.1, h.2.2.2.1 [] rfl, h.2.2.2.2.1 [] rfl,
    h.2.2.2.2.2.1 [] rfl, h.2.2.2.2.2.2 []⟩

/-! ## Playlist materialization

`create_playlist` (UI, with the `randomise` flag) and
`create_swinsian_playlist` (CLI, which always shuffles):

    id_to_track = \x7bt["id"]: t for t in all_tracks\x7d
    selected    = [id_to_track[i] for i in track_ids if i in id_to_track]
    if randomise: random.shuffle(selected)        (CLI: unconditional)
    if not selected: return 0
    run_applescript(<create playlist via File menu, escaped name>)
    for b in range(ceil(len(selected) / 50)):
        run_applescript(<one batch script for selected[b*50:(b+1)*50]>)
    return len(selected)

The model returns the count together with the ordered list of issued
AppleScript texts (the observable external calls). -/

/-- `s.replace("\\", "\\\\").replace('"', '\\"')`: the first replace doubles
every backslash and the second prefixes every original quote (the
backslashes it inserts are in front of quotes, never quotes themselves), so
the two sequential replaces equal this characterwise escape. -/
def pyEscapeChar (c : Char) : List Char :=
  if c = '\\' then ['\\', '\\'] else if c = '"' then ['\\', '"'] else [c]

def pyEscape (s : String) : String :=
  ⟨(s.data.map pyEscapeChar).flatten⟩

/-- The playlist-creation script (File-menu click plus keystrokes). -/
def create_playlist_script (playlist_name : String) : String :=
  "\ntell application \"Swinsian\" to activate\ndelay 0.5\ntell application \"System Events\"\n    tell process \"Swinsian\"\n        click menu item \"New Playlist\" of menu \"File\" of menu bar 1\n        delay 0.5\n        keystroke \"" ++
    pyEscape playlist_name ++ "\"\n        key code 36\n    end tell\nend tell"

/-- One per-track lookup-and-append snippet inside a batch script
(`safe_name` is the already-escaped playlist name). -/
def track_add_snippet (safe_name : String) (t : Track) : String :=
  "\n        set found to (every track whose name is \"" ++ pyEscape t.title ++
    "\" and artist is \"" ++ pyEscape t.artist ++
    "\")\n        if (count of found) > 0 then add tracks \x7bitem 1 of found\x7d to normal playlist \"" ++
    safe_name ++ "\""

def BATCH : Nat := 50

/-- One combined batch script. -/
def batch_script (safe_name : String) (chunk : List Track) : String :=
  "tell application \"Swinsian\"\n" ++
    joinNl (chunk.map (track_add_snippet safe_name)) ++ "\nend tell"

/-- The `for b in range(math.ceil(len(selected) / BATCH))` loop: one script
per 50-track slice. -/
def batch_scripts (safe_name : String) (selected : List Track) : List String :=
  (List.range ((selected.length + BATCH - 1) / BATCH)).map
    (fun b => batch_script safe_name ((selected.drop (b * BATCH)).take BATCH))

/-- All scripts issued for a non-empty selection: playlist creation first,
then the batches. -/
def playlist_scripts (playlist_name : String) (selected : List Track) : List String :=
  create_playlist_script playlist_name ::
    batch_scripts (pyEscape playlist_name) selected

/-- `[id_to_track[i] for i in track_ids if i in id_to_track]`. -/
def resolve_ids (track_ids : List Int) (all_tracks : List Track) : List Track :=
  track_ids.filterMap (id_to_track all_tracks)

/-- The selection list right before the emptiness check (shuffle applied when
the flag is set). -/
def selected_tracks (track_ids : List Int) (all_tracks : List Track)
    (randomise : Bool) (shuffle : List Track → List Track) : List Track :=
  if randomise then shuffle (resolve_ids track_ids all_tracks)
  else resolve_ids track_ids all_tracks

/-- The returned count and the ordered external scripted calls. -/
structure MaterializeResult where
  count : Nat
  scripts : List String
deriving DecidableEq, Repr

/-- The UI materializer `create_playlist`. -/
def create_playlist (playlist_name : String) (track_ids : List Int)
    (all_tracks : List Track) (randomise : Bool)
    (shuffle : List Track → List Track) : MaterializeResult :=
  if selected_tracks track_ids all_tracks randomise shuffle = [] then
    { count := 0, scripts := [] }
  else
    { count := (selected_tracks track_ids all_tracks randomise shuffle).length
      scripts := playlist_scripts playlist_name
        (selected_tracks track_ids all_tracks randomise shuffle) }

/-- The CLI materializer `create_swinsian_playlist`: the same body with an
unconditional `random.shuffle(selected)`, i.e. the flag fixed to true. -/
def create_swinsian_playlist (playlist_name : String) (track_ids : List Int)
    (all_tracks : List Track) (shuffle : List Track → List Track) :
    MaterializeResult :=
  create_playlist playlist_name track_ids all_tracks true shuffle

/-- The 3-track example library of the specification. -/
def exampleTracks : List Track :=
  [{ id := 0, title := "A", artist := "X", album := "", genre := "", year := "",
     rating := "", plays := "" },
   { id := 1, title := "B", artist := "Y", album := "", genre := "", year := "",
     rating := "", plays := "" },
   { id := 2, title := "C", artist := "Z", album := "", genre := "", year := "",
     rating := "", plays := "" }]

/-- The example model reply of the specification. -/
def exampleReply : String :=
  "\x7b\"playlist_name\":\"Test\",\"ids\":[2,0,9],\"rationale\":\"ok\"\x7d"

/-! ### Claim C7 -/

/-- C7: when the curated ids resolve to nothing, materialization returns
count 0 and issues no scripted calls at all — neither the playlist-creation
call nor any batch call — in both the flagged (UI) and always-shuffling
(CLI) variants. -/
theorem C7_empty_resolution (playlist_name : String) (track_ids : List Int)
    (all_tracks : List Track) (randomise : Bool)
    (shuffle : List Track → List Track)
    (hshuffle : ∀ l, (shuffle l).Perm l)
    (hempty : resolve_ids track_ids all_tracks = []) :
    create_playlist playlist_name track_ids all_tracks randomise shuffle =
        { count := 0, scripts := [] } ∧
      create_swinsian_playlist playlist_name track_ids all_tracks shuffle =
        { count := 0, scripts := [] } := by
  have hsel : ∀ r, selected_tracks track_ids all_tracks r shuffle = [] := by
    intro r
    cases r
    · simpa [selected_tracks] using hempty
    · show shuffle (resolve_ids track_ids all_tracks) = []
      rw [hempty]
      exact (hshuffle []).eq_nil
  constructor
  · rw [create_playlist, if_pos (hsel randomise)]
  · rw [create_swinsian_playlist, create_playlist, if_pos (hsel true)]

theorem C7_empty_resolution_witness :
    create_playlist "Mix" [99] exampleTracks true id =
        { count := 0, scripts := [] } ∧
      create_swinsian_playlist "Mix" [99] exampleTracks id =
        { count := 0, scripts := [] } :=
  C7_empty_resolution "Mix" [99] exampleTracks true id
    (fun l => List.Perm.refl l) (by decide)

/-! ### Claim C8 -/

/-- C8: ids with no matching record are silently dropped (materialization is
total) and the count returned equals the number of resolved tracks; on the
specification's example — the 3-track library and reply
`{"playlist_name":"Test","ids":[2,0,9],"rationale":"ok"}` — the reply parses
to name "Test" and ids [2, 0, 9], id 9 is dropped, tracks C and A resolve in
that order, the returned count is 2, and the first issued call creates the
playlist named "Test". -/
theorem C8_resolution_and_example (playlist_name : String) (track_ids : List Int)
    (all_tracks : List Track) (randomise : Bool)
    (shuffle : List Track → List Track)
    (hshuffle : ∀ l, (shuffle l).Perm l) :
    (create_playlist playlist_name track_ids all_tracks randomise shuffle).count =
        (resolve_ids track_ids all_tracks).length ∧
      parse_claude_reply exampleReply = Except.ok
        { playlist_name := Json.str "Test"
          ids := Json.arr [Json.num 2, Json.num 0, Json.num 9]
          rationale := Json.str "ok" } ∧
      resolve_ids [2, 0, 9] exampleTracks =
        [{ id := 2, title := "C", artist := "Z", album := "", genre := "", year := "",
           rating := "", plays := "" },
         { id := 0, title := "A", artist := "X", album := "", genre := "", year := "",
           rating := "", plays := "" }] ∧
      (create_playlist "Test" [2, 0, 9] exampleTracks false id).count = 2 ∧
      (create_playlist "Test" [2, 0, 9] exampleTracks false id).scripts.head? =
        some (create_playlist_script "Test") := by
  refine ⟨?_, rfl, by decide, rfl, rfl⟩
  have hlen : (selected_tracks track_ids all_tracks randomise shuffle).length =
      (resolve_ids track_ids all_tracks).length := by
    cases randomise
    · rfl
    · exact (hshuffle _).length_eq
  rw [create_playlist]
  split
  · rename_i h
    have h0 : (resolve_ids track_ids all_tracks).length = 0 := by
      rw [← hlen, h]
      rfl
    simpa using h0.symm
  · simpa using hlen

theorem C8_resolution_and_example_witness :
    (create_playlist "Test" [2, 0, 9] exampleTracks true List.reverse).count =
        (resolve_ids [2, 0, 9] exampleTracks).length ∧
      parse_claude_reply exampleReply = Except.ok
        { playlist_name := Json.str "Test"
          ids := Json.arr [Json.num 2, Json.num 0, Json.num 9]
          rationale := Json.str "ok" } ∧
      resolve_ids [2, 0, 9] exampleTracks =
        [{ id := 2, title := "C", artist := "Z", album := "", genre := "", year := "",
           rating := "", plays := "" },
         { id := 0, title := "A", artist := "X", album := "", genre := "", year := "",
           rating := "", plays := "" }] ∧
      (create_playlist "Test" [2, 0, 9] exampleTracks false id).count = 2 ∧
      (create_playlist "Test" [2, 0, 9] exampleTracks false id).scripts.head? =
        some (create_playlist_script "Test") :=
  C8_resolution_and_example "Test" [2, 0, 9] exampleTracks true List.reverse
    (fun l => l.reverse_perm)

/-! ### Claim C9 -/

/-- C9: the selection is shuffled exactly when the randomise flag is set.
With the flag off the outcome is independent of the shuffle function and the
issued scripts are built from the resolved sequence in curated-id order;
with the flag on the shuffled sequence is what gets materialized; the CLI
variant is the flag-on instance. -/
theorem C9_shuffle_iff_flag (playlist_name : String) (track_ids : List Int)
    (all_tracks : List Track) (shuffle : List Track → List Track) :
    selected_tracks track_ids all_tracks false shuffle =
        resolve_ids track_ids all_tracks ∧
      selected_tracks track_ids all_tracks true shuffle =
        shuffle (resolve_ids track_ids all_tracks) ∧
      create_playlist playlist_name track_ids all_tracks false shuffle =
        create_playlist playlist_name track_ids all_tracks false (fun l => l) ∧
      (resolve_ids track_ids all_tracks ≠ [] →
        create_playlist playlist_name track_ids all_tracks false shuffle =
          { count := (resolve_ids track_ids all_tracks).length
            scripts := playlist_scripts playlist_name
              (resolve_ids track_ids all_tracks) }) ∧
      create_swinsian_playlist playlist_name track_ids all_tracks shuffle =
        create_playlist playlist_name track_ids all_tracks true shuffle := by
  refine ⟨rfl, rfl, rfl, ?_, rfl⟩
  intro hne
  rw [create_playlist, if_neg (by simpa [selected_tracks] using hne)]
  rfl

theorem C9_shuffle_iff_flag_witness :
    selected_tracks [0, 1] exampleTracks false List.reverse =
        resolve_ids [0, 1] exampleTracks ∧
      selected_tracks [0, 1] exampleTracks true List.reverse =
        List.reverse (resolve_ids [0, 1] exampleTracks) ∧
      create_playlist "Mix" [0, 1] exampleTracks false List.reverse =
        create_playlist "Mix" [0, 1] exampleTracks false (fun l => l) ∧
      create_playlist "Mix" [0, 1] exampleTracks false List.reverse =
        { count := (resolve_ids [0, 1] exampleTracks).length
          scripts := playlist_scripts "Mix" (resolve_ids [0, 1] exampleTracks) } ∧
      create_swinsian_playlist "Mix" [0, 1] exampleTracks List.reverse =
        create_playlist "Mix" [0, 1] exampleTracks true List.reverse := by
  have h := C9_shuffle_iff_flag "Mix" [0, 1] exampleTracks List.reverse
  exact ⟨h.1, h.2.1, h.2.2.1, h.2.2.2.1 (by decide), h.2.2.2.2⟩

/-! ### Claim C10 -/

theorem count_le_count_filterMap {α β : Type} [DecidableEq α] [DecidableEq β]
    (f : α → Option β) (i : α) (t : β) (hf : f i = some t) :
    ∀ l : List α, l.count i ≤ (l.filterMap f).count t := by
  intro l
  induction l with
  | nil => simp
  | cons a l ih =>
    rw [List.count_cons, List.filterMap_cons]
    by_cases ha : a = i
    · subst ha
      rw [hf, List.count_cons]
      simp only [beq_self_eq_true, if_true]
      omega
    · cases hfa : f a with
      | none =>
        simp only [beq_iff_eq, ha, if_false]
        omega
      | some u =>
        rw [List.count_cons]
        simp only [beq_iff_eq, ha, if_false]
        have := ih
        split <;> omega

/-- C10: resolution preserves the multiplicity of the curated id list — a
resolvable id occurring k times contributes k occurrences of its record, so
the returned count can exceed the number of distinct records referenced:
ids [0, 0, 0] against the example library resolve to [A, A, A] and the
returned count is 3 for a single distinct record. -/
theorem C10_duplicates_preserved (track_ids : List Int) (all_tracks : List Track)
    (i : Int) (t : Track) (hf : id_to_track all_tracks i = some t) :
    track_ids.count i ≤ (resolve_ids track_ids all_tracks).count t ∧
      resolve_ids [0, 0, 0] exampleTracks =
        [{ id := 0, title := "A", artist := "X", album := "", genre := "", year := "",
           rating := "", plays := "" },
         { id := 0, title := "A", artist := "X", album := "", genre := "", year := "",
           rating := "", plays := "" },
         { id := 0, title := "A", artist := "X", album := "", genre := "", year := "",
           rating := "", plays := "" }] ∧
      (create_playlist "Mix" [0, 0, 0] exampleTracks false (fun l => l)).count = 3 :=
  ⟨count_le_count_filterMap _ i t hf track_ids, by decide, rfl⟩

theorem C10_duplicates_preserved_witness :
    List.count (0 : Int) [0, 0, 0] ≤
        (resolve_ids [0, 0, 0] exampleTracks).count
          { id := 0, title := "A", artist := "X", album := "", genre := "", year := "",
            rating := "", plays := "" } ∧
      resolve_ids [0, 0, 0] exampleTracks =
        [{ id := 0, title := "A", artist := "X", album := "", genre := "", year := "",
           rating := "", plays := "" },
         { id := 0, title := "A", artist := "X", album := "", genre := "", year := "",
           rating := "", plays := "" },
         { id := 0, title := "A", artist := "X", album := "", genre := "", year := "",
           rating := "", plays := "" }] ∧
      (create_playlist "Mix" [0, 0, 0] exampleTracks false (fun l => l)).count = 3 :=
  C10_duplicates_preserved [0, 0, 0] exampleTracks 0
    { id := 0, title := "A", artist := "X", album := "", genre := "", year := "",
      rating := "", plays := "" }
    (by decide)

theorem C1_amended_witness :
    ((get_library_tracks ["A", "", "B"] [] [] [] [] [] []).Pairwise
        (fun a b => a.id < b.id)) ∧
      id_to_track (get_library_tracks ["A", "", "B"] [] [] [] [] [] []) 0 =
        some { id := 0, title := "A", artist := "", album := "", genre := "",
               year := "", rating := "", plays := "" } := by
  have h := C1_amended ["A", "", "B"] [] [] [] [] [] []
  refine ⟨h.1, ?_⟩
  have h2 := h.2
    { id := 0, title := "A", artist := "", album := "", genre := "",
      year := "", rating := "", plays := "" } (by decide)
  simpa using h2

theorem C6_amended_witness :
    (parse_claude_reply "\x7boops\x7d" =
        Except.error (PyErr.protocolError ⟨preprocess_reply "\x7boops\x7d"⟩) ↔
      jsonParse (preprocess_reply "\x7boops\x7d") = none ∧
        greedyBraceSpan (preprocess_reply "\x7boops\x7d") = none) ∧
      parse_claude_reply "\x7boops\x7d" = Except.error PyErr.jsonDecodeError := by
  have h := C6_amended "\x7boops\x7d"
  exact ⟨h.1, h.2 ("\x7boops\x7d").data rfl rfl rfl⟩
